import Mathlib

/-!
Verification development for the harvest-mcp data-access and compute core.

The definitions below are shallow embeddings of the TypeScript sources:
  - `src/harvest/client.ts` (HarvestClient.autoPaginate, HarvestClient.request)
  - `src/harvest/cache.ts` (HarvestCache.generateKey, HarvestCache.invalidate)
  - `src/harvest/rate-limiter.ts` (HarvestRateLimiter)
  - `src/entities/entity-resolver.ts` (EntityResolver)
  - `src/compute/aggregation.ts` (TimeAggregationCalculator)
  - `src/compute/utilization.ts` (UtilizationCalculator, ProfitabilityCalculator)

Conventions: JS numbers are modelled as `ℚ` (the computations at stake are
exact decimal arithmetic), timestamps as `ℤ` milliseconds, JS `null`/`undefined`
as `Option`, thrown exceptions as `Except`, and JS strings as `String` with all
manipulation done on the underlying `List Char` so terms evaluate by `decide`.
External collaborators (the SHA-256 digest from node:crypto, the upstream HTTP
responses) are parameters of the corresponding definitions.
-/

/-! ### Auto-pagination (HarvestClient.autoPaginate, src/harvest/client.ts lines 209-254)

A page response carries the array payload plus the pagination bookkeeping
fields of the upstream contract.  The `endpoint` closure is modelled as a
function from the page number to either a page or a thrown error. -/

deriving instance DecidableEq for Except

structure PageResp (I : Type) where
  items : List I
  total_entries : ℕ
  total_pages : ℕ
  next_page : Option ℕ
deriving Repr, DecidableEq

structure ApResult (I : Type) where
  items : List I
  total_entries : ℕ
  pages_fetched : ℕ
deriving Repr, DecidableEq

/-- Loop body of `autoPaginate`.  The JS `while (page <= maxPages && page <= totalPages)`
loop is given explicit fuel; since `page` starts at 1 and increases by 1 every
iteration, `maxPages + 1` fuel always suffices, and the fuel-exhaustion branch
returns the same shape as the normal exit. -/
def apLoop {I E : Type} (fetch : ℕ → Except E (PageResp I)) (maxPages : ℕ) :
    ℕ → ℕ → ℕ → ℕ → List I → Except E (ApResult I)
  | 0, page, _, totalEntries, acc =>
      .ok { items := acc, total_entries := totalEntries, pages_fetched := page }
  | fuel + 1, page, totalPages, totalEntries, acc =>
      if page ≤ maxPages ∧ page ≤ totalPages then
        match fetch page with
        | .error e => .error e
        | .ok r =>
            let acc' := acc ++ r.items
            if r.next_page = none then
              .ok { items := acc', total_entries := r.total_entries, pages_fetched := page }
            else
              apLoop fetch maxPages fuel (page + 1) r.total_pages r.total_entries acc'
      else
        .ok { items := acc, total_entries := totalEntries, pages_fetched := page }

/-- HarvestClient.autoPaginate: walk pages starting at 1, with initial
`totalEntries = 0`, `totalPages = 1`, accumulating the array payload of each
page; stop on `next_page === null` (reporting the current page) or when the
`while` guard `page <= maxPages && page <= totalPages` fails (reporting the
already-incremented page counter). -/
def autoPaginate {I E : Type} (fetch : ℕ → Except E (PageResp I)) (maxPages : ℕ := 10) :
    Except E (ApResult I) :=
  apLoop fetch maxPages (maxPages + 1) 1 1 0 []

/-- The fake paginated source of the spec's pagination test: 250 entries at 100
per page, 3 pages, `next_page` = 2, 3, null. -/
def fakeSource : ℕ → Except Unit (PageResp ℕ)
  | 1 => .ok { items := (List.range 100).map (· + 0), total_entries := 250,
               total_pages := 3, next_page := some 2 }
  | 2 => .ok { items := (List.range 100).map (· + 100), total_entries := 250,
               total_pages := 3, next_page := some 3 }
  | 3 => .ok { items := (List.range 50).map (· + 200), total_entries := 250,
               total_pages := 3, next_page := none }
  | _ => .error ()

set_option maxRecDepth 4000

/-- C1.  Claim: with the default options the fake 250-entry source yields 250
items and `pages_fetched = 3` (this part holds); with `maxPages = 2` it yields
the first 200 items and `pages_fetched = 2`.  The code returns the first 200
items but reports `pages_fetched = 3`: when the loop exits through the
`page <= maxPages` guard the `page` counter has already been incremented past
the last page actually fetched, so the result over-reports by one.  This
theorem evaluates the embedded `autoPaginate` at both inputs, exhibiting the
divergence. -/
theorem autoPaginate_fake_source_eval :
    autoPaginate fakeSource 10 =
      .ok { items := List.range 250, total_entries := 250, pages_fetched := 3 } ∧
    autoPaginate fakeSource 2 =
      .ok { items := List.range 200, total_entries := 250, pages_fetched := 3 } := by
  constructor <;> decide

/-- If the loop is positioned at most `k` pages before a failing page `k`, with
every earlier page succeeding and chaining to the next one, the loop propagates
the error of page `k`. -/
theorem apLoop_error {I E : Type} (fetch : ℕ → Except E (PageResp I)) (maxPages k : ℕ) (e : E) :
    ∀ fuel page totalPages totalEntries acc,
      k < fuel + page →
      page ≤ k → k ≤ maxPages → page ≤ totalPages →
      (∀ q, page ≤ q → q < k →
        ∃ r, fetch q = Except.ok r ∧ r.next_page ≠ none ∧ q + 1 ≤ r.total_pages) →
      fetch k = Except.error e →
      apLoop fetch maxPages fuel page totalPages totalEntries acc = Except.error e := by
  intro fuel
  induction fuel with
  | zero =>
    intro page totalPages totalEntries acc hfuel hpk hkm hpt hprev hfail
    omega
  | succ fuel ih =>
    intro page totalPages totalEntries acc hfuel hpk hkm hpt hprev hfail
    have hguard : page ≤ maxPages ∧ page ≤ totalPages := ⟨le_trans hpk hkm, hpt⟩
    rcases eq_or_lt_of_le hpk with heq | hlt
    · subst heq
      simp only [apLoop, if_pos hguard, hfail]
    · obtain ⟨r, hr, hnp, htp⟩ := hprev page le_rfl hlt
      simp only [apLoop, if_pos hguard, hr, if_neg hnp]
      exact ih (page + 1) r.total_pages r.total_entries (acc ++ r.items) (by omega) (by omega)
        hkm htp (fun q hq1 hq2 => hprev q (by omega) hq2) hfail

/-- C9.  If the fetch of any page visited by the pagination loop fails, the
whole `autoPaginate` call fails with that page's error, and no partially
accumulated items are returned: the call never produces an `ok` result.  Page
`k` is "visited" when every earlier page succeeded with a non-null `next_page`
chaining past it and `k` is within the `maxPages` budget. -/
theorem autoPaginate_page_failure_aborts {I E : Type}
    (fetch : ℕ → Except E (PageResp I)) (maxPages k : ℕ) (e : E)
    (hk1 : 1 ≤ k) (hkm : k ≤ maxPages)
    (hprev : ∀ q, 1 ≤ q → q < k →
      ∃ r, fetch q = Except.ok r ∧ r.next_page ≠ none ∧ q + 1 ≤ r.total_pages)
    (hfail : fetch k = Except.error e) :
    autoPaginate fetch maxPages = Except.error e ∧
      ∀ res : ApResult I, autoPaginate fetch maxPages ≠ Except.ok res := by
  have h : autoPaginate fetch maxPages = Except.error e :=
    apLoop_error fetch maxPages k e (maxPages + 1) 1 1 0 [] (by omega) hk1 hkm le_rfl hprev hfail
  exact ⟨h, fun res hres => by rw [h] at hres; exact Except.noConfusion hres⟩

/-- A source whose second page raises: page 1 succeeds and chains onwards,
page 2 throws. -/
def failSource : ℕ → Except String (PageResp ℕ)
  | 1 => .ok { items := [10, 20], total_entries := 5, total_pages := 3, next_page := some 2 }
  | _ => .error "network down"

/-- Witness for C9 at a concrete failing source. -/
theorem autoPaginate_page_failure_aborts_witness :
    autoPaginate failSource 10 = Except.error "network down" ∧
      ∀ res : ApResult ℕ, autoPaginate failSource 10 ≠ Except.ok res := by
  refine autoPaginate_page_failure_aborts failSource 10 2 "network down" (by decide) (by decide)
    (fun q h1 h2 => ?_) (by decide)
  have hq : q = 1 := by omega
  subst hq
  exact ⟨_, rfl, by decide, by decide⟩

/-! ### Rate limiter (HarvestRateLimiter, src/harvest/rate-limiter.ts)

Timestamps are `ℤ` milliseconds.  `Date.now()` is passed explicitly as `now`. -/

structure RateLimitConfig where
  maxRequests : ℕ
  windowMs : ℤ
  warningThreshold : ℚ
deriving Repr, DecidableEq

/-- Default config: 100 requests per 15 seconds, throttling from 80%. -/
def defaultRateLimitConfig : RateLimitConfig :=
  { maxRequests := 100, windowMs := 15000, warningThreshold := 0.8 }

structure RateLimiterState where
  requestTimestamps : List ℤ
  retryAfterMs : ℤ
deriving Repr, DecidableEq

/-- HarvestRateLimiter.cleanOldTimestamps: keep timestamps strictly newer than
`now - windowMs`. -/
def cleanOldTimestamps (cfg : RateLimitConfig) (st : RateLimiterState) (now : ℤ) : List ℤ :=
  st.requestTimestamps.filter (fun ts => decide (now - cfg.windowMs < ts))

/-- HarvestRateLimiter.acquirePermit: returns the number of milliseconds the
caller must wait.  An active retry-after embargo dominates; at the limit the
wait is `(oldest + windowMs) - now` (`Math.min` over a nonempty spread is the
fold of `min`; the empty case, JS `Infinity`, is unreachable when
`maxRequests ≥ 1` and is modelled as 0); near the limit a small staggering
delay `min (floor (windowMs / remaining / 2)) 500` is returned. -/
def acquirePermit (cfg : RateLimitConfig) (st : RateLimiterState) (now : ℤ) : ℤ :=
  let ts := cleanOldTimestamps cfg st now
  if now < st.retryAfterMs then st.retryAfterMs - now
  else
    let count := ts.length
    if cfg.maxRequests ≤ count then
      match ts with
      | [] => 0
      | x :: xs => max 0 ((xs.foldl min x) + cfg.windowMs - now)
    else if (cfg.maxRequests : ℚ) * cfg.warningThreshold ≤ (count : ℚ) then
      let remaining : ℕ := cfg.maxRequests - count
      min ⌊(cfg.windowMs : ℚ) / (remaining : ℚ) / 2⌋ 500
    else 0

/-- HarvestRateLimiter.recordRequest: append the current timestamp. -/
def recordRequest (st : RateLimiterState) (now : ℤ) : RateLimiterState :=
  { st with requestTimestamps := st.requestTimestamps ++ [now] }

/-- HarvestRateLimiter.handleRateLimit: set an absolute embargo deadline. -/
def handleRateLimit (st : RateLimiterState) (now retryAfterSeconds : ℤ) : RateLimiterState :=
  { st with retryAfterMs := now + retryAfterSeconds * 1000 }

theorem foldl_recordRequest (r : ℤ) (l : List ℤ) : ∀ ts0 : List ℤ,
    List.foldl recordRequest { requestTimestamps := ts0, retryAfterMs := r } l =
      { requestTimestamps := ts0 ++ l, retryAfterMs := r } := by
  induction l with
  | nil => intro ts0; simp
  | cons x xs ih =>
    intro ts0
    simp only [List.foldl_cons, recordRequest, ih (ts0 ++ [x]), List.append_assoc,
      List.singleton_append]

theorem foldl_min_mem : ∀ (xs : List ℤ) (x : ℤ), xs.foldl min x ∈ x :: xs := by
  intro xs
  induction xs with
  | nil => intro x; simp
  | cons y ys ih =>
    intro x
    rw [List.foldl_cons]
    rcases List.mem_cons.mp (ih (min x y)) with h | h
    · rcases min_cases x y with ⟨he, _⟩ | ⟨he, _⟩
      · rw [h, he]; exact List.mem_cons_self _ _
      · rw [h, he]; exact List.mem_cons_of_mem _ (List.mem_cons_self _ _)
    · exact List.mem_cons_of_mem _ (List.mem_cons_of_mem _ h)

theorem foldl_min_le : ∀ (xs : List ℤ) (x b : ℤ), b ∈ x :: xs → xs.foldl min x ≤ b := by
  intro xs
  induction xs with
  | nil =>
    intro x b hb
    rw [List.mem_singleton] at hb
    simp [hb]
  | cons y ys ih =>
    intro x b hb
    rw [List.foldl_cons]
    rcases List.mem_cons.mp hb with hb | hb
    · exact le_trans (ih (min x y) (min x y) (List.mem_cons_self _ _))
        (by rw [hb]; exact min_le_left x y)
    · rcases List.mem_cons.mp hb with hb | hb
      · exact le_trans (ih (min x y) (min x y) (List.mem_cons_self _ _))
          (by rw [hb]; exact min_le_right x y)
      · exact ih (min x y) b (List.mem_cons_of_mem _ hb)

/-- C4.  With no embargo active (`retryAfterMs ≤ now`): after `maxRequests`
calls to `recordRequest` with timestamps inside the last `windowMs`,
`acquirePermit` returns `(oldest + windowMs) - now`, which is strictly
positive; and at any instant a full window after all recorded timestamps,
`acquirePermit` returns 0. -/
theorem acquirePermit_at_limit (cfg : RateLimitConfig) (l : List ℤ) (retry now : ℤ)
    (st : RateLimiterState)
    (hst : st = List.foldl recordRequest { requestTimestamps := [], retryAfterMs := retry } l)
    (hmax : 1 ≤ cfg.maxRequests) (hthr : 0 < cfg.warningThreshold) (hwin : 0 < cfg.windowMs)
    (hlen : l.length = cfg.maxRequests)
    (hin : ∀ t ∈ l, now - cfg.windowMs < t ∧ t ≤ now)
    (hretry : retry ≤ now) :
    (∃ m, m ∈ l ∧ (∀ b ∈ l, m ≤ b) ∧ acquirePermit cfg st now = m + cfg.windowMs - now) ∧
    0 < acquirePermit cfg st now ∧
    (∀ now₂, now + cfg.windowMs ≤ now₂ → acquirePermit cfg st now₂ = 0) := by
  have hts : st.requestTimestamps = l := by rw [hst, foldl_recordRequest]; rfl
  have hretrySt : st.retryAfterMs = retry := by rw [hst, foldl_recordRequest]
  have hclean : cleanOldTimestamps cfg st now = l := by
    rw [cleanOldTimestamps, hts, List.filter_eq_self]
    intro a ha
    exact decide_eq_true (hin a ha).1
  obtain ⟨x, xs, hl⟩ : ∃ x xs, l = x :: xs := by
    cases l with
    | nil => exfalso; rw [List.length_nil] at hlen; omega
    | cons x xs => exact ⟨x, xs, rfl⟩
  have hm_mem : xs.foldl min x ∈ l := by rw [hl]; exact foldl_min_mem xs x
  have hm_le : ∀ b ∈ l, xs.foldl min x ≤ b := by rw [hl]; exact fun b hb => foldl_min_le xs x b hb
  have hpos : 0 < xs.foldl min x + cfg.windowMs - now := by
    have := (hin _ hm_mem).1
    omega
  have hval : acquirePermit cfg st now = xs.foldl min x + cfg.windowMs - now := by
    rw [acquirePermit]
    simp only [hclean, hl]
    rw [if_neg (by omega : ¬ now < st.retryAfterMs)]
    rw [if_pos (by rw [← hl, hlen] : cfg.maxRequests ≤ (x :: xs).length)]
    omega
  refine ⟨⟨xs.foldl min x, hm_mem, hm_le, hval⟩, by omega, ?_⟩
  intro now₂ h2
  have hclean₂ : cleanOldTimestamps cfg st now₂ = [] := by
    rw [cleanOldTimestamps, hts, List.filter_eq_nil_iff]
    intro a ha
    have := (hin a ha).2
    simp only [decide_eq_true_eq]
    omega
  rw [acquirePermit]
  simp only [hclean₂, List.length_nil]
  rw [if_neg (by omega : ¬ now₂ < st.retryAfterMs)]
  rw [if_neg (by omega : ¬ cfg.maxRequests ≤ 0)]
  have h1 : (1 : ℚ) ≤ (cfg.maxRequests : ℚ) := by exact_mod_cast hmax
  have hprod : (0 : ℚ) < (cfg.maxRequests : ℚ) * cfg.warningThreshold :=
    mul_pos (by linarith) hthr
  rw [if_neg (by simp only [Nat.cast_zero]; linarith)]

/-- Small concrete configuration for the C4 witness: 2 requests per 15 s. -/
def c4cfg : RateLimitConfig := { maxRequests := 2, windowMs := 15000, warningThreshold := 0.8 }

/-- Concrete limiter state for the C4 witness: two requests recorded at
t = -5 ms and t = 0 ms, no embargo. -/
def c4state : RateLimiterState :=
  List.foldl recordRequest { requestTimestamps := [], retryAfterMs := -100 } [(-5 : ℤ), 0]

/-- Witness for C4 at the concrete state `c4state`, time 0. -/
theorem acquirePermit_at_limit_witness :
    (∃ m, m ∈ [(-5 : ℤ), 0] ∧ (∀ b ∈ [(-5 : ℤ), 0], m ≤ b) ∧
      acquirePermit c4cfg c4state 0 = m + c4cfg.windowMs - 0) ∧
    0 < acquirePermit c4cfg c4state 0 ∧
    (∀ now₂, (0 : ℤ) + c4cfg.windowMs ≤ now₂ → acquirePermit c4cfg c4state now₂ = 0) :=
  acquirePermit_at_limit c4cfg [(-5 : ℤ), 0] (-100) 0 c4state rfl (by decide)
    (by rw [c4cfg]; norm_num) (by decide) (by decide) (by decide) (by decide)

/-! ### Cache key generation (HarvestCache.generateKey, src/harvest/cache.ts)

`JSON.stringify` and the node:crypto SHA-256 digest are external to the
repository: the digest is a parameter `sha256hex`, and JSON serialization of
the entries array is embedded with JS number formatting abstracted to the
rational's canonical rendering (only injectivity/determinism of the rendering
matters here).  `localeCompare` on the keys is modelled by the codepoint order
on strings (a linear order, which is all the sort needs). -/

inductive PVal where
  | str (s : String)
  | num (q : ℚ)
  | bool (b : Bool)
deriving Repr, DecidableEq

/-- JSON rendering of a single parameter value. -/
def jsonOfPVal : PVal → String
  | .str s => "\"" ++ s ++ "\""
  | .num q => toString q
  | .bool b => if b then "true" else "false"

/-- Join a list of strings with a separator (kernel-reducible replacement for
String.intercalate). -/
def joinSep (sep : String) : List String → String
  | [] => ""
  | [s] => s
  | s :: rest => s ++ sep ++ joinSep sep rest

/-- JSON rendering of `Object.entries(params)` as an array of two-element
arrays, as `JSON.stringify` produces. -/
def jsonOfEntries (l : List (String × PVal)) : String :=
  "[" ++ joinSep "," (l.map (fun kv => "[\"" ++ kv.1 ++ "\"," ++ jsonOfPVal kv.2 ++ "]")) ++ "]"

/-- Comparison used to sort entries: by key, ascending. -/
def paramKeyLe (a b : String × PVal) : Prop := a.1 ≤ b.1

def paramKeyLt (a b : String × PVal) : Prop := a.1 < b.1

instance : DecidableRel paramKeyLe := fun a b => inferInstanceAs (Decidable (a.1 ≤ b.1))

instance : DecidableRel paramKeyLt := fun a b => inferInstanceAs (Decidable (a.1 < b.1))

instance : IsTotal (String × PVal) paramKeyLe := ⟨fun a b => le_total a.1 b.1⟩

instance : IsTrans (String × PVal) paramKeyLe := ⟨fun _ _ _ => le_trans⟩

instance : IsAntisymm (String × PVal) paramKeyLt :=
  ⟨fun _ _ h1 h2 => absurd h1 (lt_asymm h2)⟩

/-- Entries sorted lexicographically by key, as
`Object.entries(params).sort(([a], [b]) => a.localeCompare(b))`. -/
def sortParams (l : List (String × PVal)) : List (String × PVal) :=
  List.insertionSort paramKeyLe l

/-- First `n` characters of a string (`String.substring(0, n)`). -/
def takeStr (n : ℕ) (s : String) : String := ⟨s.data.take n⟩

/-- Normalized parameter serialization: JSON of the key-sorted entries, or the
empty string when `params` is absent. -/
def normalizedParams : Option (List (String × PVal)) → String
  | some l => jsonOfEntries (sortParams l)
  | none => ""

/-- HarvestCache.generateKey: `path + ":" + sha256hex(path + JSON of sorted
entries).substring(0, 12)`. -/
def generateKey (sha256hex : String → String) (path : String)
    (params : Option (List (String × PVal))) : String :=
  path ++ ":" ++ takeStr 12 (sha256hex (path ++ normalizedParams params))

theorem sortParams_perm_eq {l₁ l₂ : List (String × PVal)} (hperm : l₁.Perm l₂)
    (hnd : (l₁.map Prod.fst).Nodup) : sortParams l₁ = sortParams l₂ := by
  have p₁ : (sortParams l₁).Perm l₁ := List.perm_insertionSort paramKeyLe l₁
  have p₂ : (sortParams l₂).Perm l₂ := List.perm_insertionSort paramKeyLe l₂
  have hp : (sortParams l₁).Perm (sortParams l₂) := p₁.trans (hperm.trans p₂.symm)
  have hs₁ : List.Sorted paramKeyLe (sortParams l₁) := List.sorted_insertionSort paramKeyLe l₁
  have hs₂ : List.Sorted paramKeyLe (sortParams l₂) := List.sorted_insertionSort paramKeyLe l₂
  have hnd₁ : ((sortParams l₁).map Prod.fst).Nodup := ((p₁.map Prod.fst).nodup_iff).mpr hnd
  have hnd₂ : ((sortParams l₂).map Prod.fst).Nodup :=
    ((p₂.map Prod.fst).nodup_iff).mpr (((hperm.map Prod.fst).nodup_iff).mp hnd)
  have hne₁ : (sortParams l₁).Pairwise (fun a b => a.1 ≠ b.1) := List.pairwise_map.mp hnd₁
  have hne₂ : (sortParams l₂).Pairwise (fun a b => a.1 ≠ b.1) := List.pairwise_map.mp hnd₂
  have hlt₁ : List.Sorted paramKeyLt (sortParams l₁) :=
    (hs₁.and hne₁).imp (fun h => lt_of_le_of_ne h.1 h.2)
  have hlt₂ : List.Sorted paramKeyLt (sortParams l₂) :=
    (hs₂.and hne₂).imp (fun h => lt_of_le_of_ne h.1 h.2)
  exact List.eq_of_perm_of_sorted hp hlt₁ hlt₂

/-- C5.  For every digest function, path, and two parameter maps holding the
same key-value entries in any order (keys distinct, as in a JS object), the
generated cache keys are identical; and the key is exactly the path followed
by ":" and the 12-character truncation of the digest of the path concatenated
with the JSON of the key-sorted entries. -/
theorem generateKey_canonical (sha256hex : String → String) (path : String)
    (l₁ l₂ : List (String × PVal)) (hperm : l₁.Perm l₂)
    (hnd : (l₁.map Prod.fst).Nodup) :
    generateKey sha256hex path (some l₁) = generateKey sha256hex path (some l₂) ∧
    generateKey sha256hex path (some l₁) =
      path ++ ":" ++ takeStr 12 (sha256hex (path ++ jsonOfEntries (sortParams l₁))) := by
  constructor
  · simp only [generateKey, normalizedParams, sortParams_perm_eq hperm hnd]
  · rfl

/-- Witness for C5: two orderings of the same two-entry parameter map. -/
theorem generateKey_canonical_witness :
    generateKey id "/time_entries" (some [("from", .str "2024-01-01"), ("page", .num 2)]) =
      generateKey id "/time_entries" (some [("page", .num 2), ("from", .str "2024-01-01")]) ∧
    generateKey id "/time_entries" (some [("from", .str "2024-01-01"), ("page", .num 2)]) =
      "/time_entries" ++ ":" ++ takeStr 12 (id ("/time_entries" ++
        jsonOfEntries (sortParams [("from", .str "2024-01-01"), ("page", .num 2)]))) :=
  generateKey_canonical id "/time_entries"
    [("from", .str "2024-01-01"), ("page", .num 2)]
    [("page", .num 2), ("from", .str "2024-01-01")]
    (by decide) (by decide)

/-! ### Response cache and request effects (HarvestClient.request, HarvestCache)

The backing lru-cache store is an external npm dependency; it is modelled as an
association list from keys to entries (the TTL and LRU-capacity behavior is
orthogonal to the invalidation claims).  `HarvestCache.invalidate` with the
`RegExp` built by the client (`^/resourceType`) removes every stored key that
starts with the given string.  A single request attempt's effect on the cache
is a function of the HTTP outcome. -/

structure CacheEntry (D : Type) where
  data : D
  timestamp : ℤ
deriving Repr, DecidableEq

/-- Lookup in the backing store. -/
def cacheGet {D : Type} (c : List (String × CacheEntry D)) (k : String) :
    Option (CacheEntry D) :=
  (c.find? (fun kv => decide (kv.1 = k))).map Prod.snd

/-- HarvestCache.set on the backing store: replace the entry for an existing
key, otherwise append. -/
def cacheSet {D : Type} (c : List (String × CacheEntry D)) (k : String) (e : CacheEntry D) :
    List (String × CacheEntry D) :=
  if c.any (fun kv => decide (kv.1 = k)) then
    c.map (fun kv => if kv.1 = k then (k, e) else kv)
  else
    c ++ [(k, e)]

/-- HarvestCache.invalidate: delete every stored key matching the test. -/
def invalidateMatching {D : Type} (c : List (String × CacheEntry D)) (test : String → Bool) :
    List (String × CacheEntry D) :=
  c.filter (fun kv => ! test kv.1)

/-- RegExp `^pre` applied to a key. -/
def startsWithStr (pre s : String) : Bool := pre.data.isPrefixOf s.data

/-- JS `"a/b/c".split("/")` on the character list. -/
def splitListOn (sep : Char) : List Char → List (List Char)
  | [] => [[]]
  | c :: rest =>
      match splitListOn sep rest with
      | [] => if c = sep then [[], []] else [[c]]
      | h :: t => if c = sep then [] :: h :: t else (c :: h) :: t

def splitOnSlash (s : String) : List String :=
  (splitListOn '/' s.data).map (fun l => ⟨l⟩)

inductive HttpOutcome (D : Type) where
  | ok (body : D)
  | noContent
  | httpError (status : ℕ)
deriving Repr, DecidableEq

/-- Effect of one attempt of HarvestClient.request on the cache (cache enabled,
`skipCache` false, as in every caller in the repository).  In source order: a
GET whose key is already cached returns the hit without touching the store; a
non-2xx response throws before any cache write; a 204 returns before both the
GET cache write and the non-GET invalidation; a 2xx JSON response is written
to the cache when the method is GET, and for a non-GET method every key
starting with `/` + the path's top-level resource segment is invalidated. -/
def requestCacheEffect {D : Type} (sha256hex : String → String) (method path : String)
    (params : Option (List (String × PVal))) (outcome : HttpOutcome D) (now : ℤ)
    (c : List (String × CacheEntry D)) : List (String × CacheEntry D) :=
  if method = "GET" ∧ (cacheGet c (generateKey sha256hex path params)).isSome then c
  else
    match outcome with
    | .httpError _ => c
    | .noContent => c
    | .ok d =>
        if method = "GET" then cacheSet c (generateKey sha256hex path params) ⟨d, now⟩
        else
          match (splitOnSlash path).get? 1 with
          | some r => if r = "" then c else invalidateMatching c (fun k => startsWithStr ("/" ++ r) k)
          | none => c

/-- Top-level resource segments of every path the HarvestClient methods issue. -/
def clientSegments : List String :=
  ["company", "users", "clients", "projects", "tasks", "time_entries",
   "invoices", "expenses", "contacts"]

theorem clientSegments_prefix_eq : ∀ r ∈ clientSegments, ∀ s ∈ clientSegments,
    r.data.isPrefixOf s.data = true → r = s := by decide

theorem startsWith_seg_key (r rest₂ tail : String) :
    startsWithStr ("/" ++ r) ((("/" ++ r ++ rest₂) ++ ":") ++ tail) = true := by
  rw [startsWithStr]
  refine (List.isPrefixOf_iff_prefix).mpr ⟨rest₂.data ++ ":".data ++ tail.data, ?_⟩
  simp [String.data_append, List.append_assoc]

theorem segKey_not_prefix (r s rest₂ tail : String) (hr : r ∈ clientSegments)
    (hs : s ∈ clientSegments) (hne : s ≠ r) :
    startsWithStr ("/" ++ r) ((("/" ++ s ++ rest₂) ++ ":") ++ tail) = false := by
  by_contra h
  have h'' : startsWithStr ("/" ++ r) ((("/" ++ s ++ rest₂) ++ ":") ++ tail) = true :=
    eq_true_of_ne_false h
  have h' : ("/" ++ r).data <+: ((("/" ++ s ++ rest₂) ++ ":") ++ tail).data :=
    (List.isPrefixOf_iff_prefix).mp h''
  have hB : ("/" ++ s).data <+: ((("/" ++ s ++ rest₂) ++ ":") ++ tail).data := by
    refine ⟨rest₂.data ++ ":".data ++ tail.data, ?_⟩
    simp [String.data_append, List.append_assoc]
  have hdr : ("/" ++ r).data = '/' :: r.data := by
    simp [String.data_append]
  have hds : ("/" ++ s).data = '/' :: s.data := by
    simp [String.data_append]
  rcases List.prefix_or_prefix_of_prefix h' hB with hab | hba
  · rw [hdr, hds, List.cons_prefix_cons] at hab
    exact hne (clientSegments_prefix_eq r hr s hs
      ((List.isPrefixOf_iff_prefix).mpr hab.2)).symm
  · rw [hdr, hds, List.cons_prefix_cons] at hba
    exact hne (clientSegments_prefix_eq s hs r hr
      ((List.isPrefixOf_iff_prefix).mpr hba.2))

theorem find?_filter_of_imp {α : Type} (p q : α → Bool) (h : ∀ a, q a = true → p a = true) :
    ∀ l : List α, List.find? q (List.filter p l) = List.find? q l := by
  intro l
  induction l with
  | nil => rfl
  | cons x xs ih =>
    by_cases hq : q x = true
    · rw [List.filter_cons, if_pos (h x hq), List.find?_cons_of_pos _ hq,
        List.find?_cons_of_pos _ hq]
    · by_cases hp : p x = true
      · rw [List.filter_cons, if_pos hp, List.find?_cons_of_neg _ hq,
          List.find?_cons_of_neg _ hq, ih]
      · rw [List.filter_cons, if_neg hp, ih, List.find?_cons_of_neg _ hq]

/-- Stand-in digest for concrete cache-key evaluation. -/
def cxSha : String → String := fun _ => "abcdef"

/-- C3 counterexample.  The claim says every successful non-GET request
invalidates all cached entries under the same top-level resource segment; but
a non-GET request that succeeds with HTTP 204 No Content (e.g. a DELETE)
returns before the invalidation step, leaving the same-segment cached entry in
place.  Here a GET of `/clients` populates the cache, then a DELETE of
`/clients/5` completing with 204 leaves the cache unchanged and the `/clients`
entry still present. -/
theorem request_cache_noContent_cx :
    requestCacheEffect cxSha "DELETE" "/clients/5" none HttpOutcome.noContent 1
        (requestCacheEffect cxSha "GET" "/clients" none (HttpOutcome.ok (0 : ℕ)) 0 []) =
      requestCacheEffect cxSha "GET" "/clients" none (HttpOutcome.ok (0 : ℕ)) 0 [] ∧
    cacheGet (requestCacheEffect cxSha "GET" "/clients" none (HttpOutcome.ok (0 : ℕ)) 0 [])
        (generateKey cxSha "/clients" none) ≠ none := by
  constructor <;> decide

/-- C3 (amended).  For every non-GET request that succeeds with a JSON body
(2xx other than 204) on a path whose top-level resource segment is `r`, every
cached GET key under the same segment is removed while cached keys under any
other segment of the client's path language are untouched; a response that
throws (non-2xx) or returns 204 No Content leaves the cache unchanged for any
method — in particular a GET response is written to the cache only on
success. -/
theorem request_cache_effects {D : Type} (sha256hex : String → String)
    (method path r s rest' : String) (params params' : Option (List (String × PVal)))
    (d : D) (now : ℤ) (c : List (String × CacheEntry D))
    (hm : method ≠ "GET")
    (hsplit : (splitOnSlash path).get? 1 = some r)
    (hr : r ∈ clientSegments) (hs : s ∈ clientSegments) :
    (s = r →
      cacheGet (requestCacheEffect sha256hex method path params (HttpOutcome.ok d) now c)
        (generateKey sha256hex ("/" ++ s ++ rest') params') = none) ∧
    (s ≠ r →
      cacheGet (requestCacheEffect sha256hex method path params (HttpOutcome.ok d) now c)
        (generateKey sha256hex ("/" ++ s ++ rest') params') =
      cacheGet c (generateKey sha256hex ("/" ++ s ++ rest') params')) ∧
    (∀ (m₂ p₂ : String) (pr₂ : Option (List (String × PVal))) (st : ℕ)
        (c₂ : List (String × CacheEntry D)),
      requestCacheEffect sha256hex m₂ p₂ pr₂ (HttpOutcome.httpError st) now c₂ = c₂ ∧
      requestCacheEffect sha256hex m₂ p₂ pr₂ HttpOutcome.noContent now c₂ = c₂) := by
  have hrne : ¬ (r = "") := by
    intro hre
    rw [hre] at hr
    exact absurd hr (by decide)
  have hres : requestCacheEffect sha256hex method path params (HttpOutcome.ok d) now c =
      invalidateMatching c (fun k => startsWithStr ("/" ++ r) k) := by
    rw [requestCacheEffect, if_neg (fun hand => hm hand.1)]
    rw [if_neg hm, hsplit]
    simp only []
    rw [if_neg hrne]
  refine ⟨?_, ?_, ?_⟩
  · intro hsr
    subst hsr
    rw [hres, cacheGet, invalidateMatching]
    rw [List.find?_eq_none.mpr]
    · rfl
    · intro kv hkv
      have hkeep := (List.mem_filter.mp hkv).2
      intro hq
      have hkeq : kv.1 = generateKey sha256hex ("/" ++ s ++ rest') params' :=
        of_decide_eq_true hq
      rw [hkeq] at hkeep
      have : startsWithStr ("/" ++ s)
          ((("/" ++ s ++ rest') ++ ":") ++
            takeStr 12 (sha256hex ("/" ++ s ++ rest' ++ normalizedParams params'))) = true :=
        startsWith_seg_key s rest' _
      rw [generateKey] at hkeep
      rw [this] at hkeep
      exact Bool.noConfusion hkeep
  · intro hsne
    rw [hres, cacheGet, invalidateMatching, cacheGet]
    rw [find?_filter_of_imp]
    intro kv hq
    have hkeq : kv.1 = generateKey sha256hex ("/" ++ s ++ rest') params' :=
      of_decide_eq_true hq
    rw [hkeq, generateKey]
    have : startsWithStr ("/" ++ r)
        ((("/" ++ s ++ rest') ++ ":") ++
          takeStr 12 (sha256hex ("/" ++ s ++ rest' ++ normalizedParams params'))) = false :=
      segKey_not_prefix r s rest' _ hr hs hsne
    rw [this]
    rfl
  · intro m₂ p₂ pr₂ st c₂
    constructor
    · rw [requestCacheEffect]
      by_cases hhit : m₂ = "GET" ∧ (cacheGet c₂ (generateKey sha256hex p₂ pr₂)).isSome
      · rw [if_pos hhit]
      · rw [if_neg hhit]
    · rw [requestCacheEffect]
      by_cases hhit : m₂ = "GET" ∧ (cacheGet c₂ (generateKey sha256hex p₂ pr₂)).isSome
      · rw [if_pos hhit]
      · rw [if_neg hhit]

/-- Witness for C3 (amended) at a concrete PATCH on `/time_entries/7` over a
cache holding one entry under `/time_entries`. -/
theorem request_cache_effects_witness :
    ("time_entries" = "time_entries" →
      cacheGet (requestCacheEffect id "PATCH" "/time_entries/7" none (HttpOutcome.ok (0 : ℕ)) 5
          [(generateKey id ("/" ++ "time_entries" ++ "") none, CacheEntry.mk 3 0)])
        (generateKey id ("/" ++ "time_entries" ++ "") none) = none) ∧
    ("time_entries" ≠ "time_entries" →
      cacheGet (requestCacheEffect id "PATCH" "/time_entries/7" none (HttpOutcome.ok (0 : ℕ)) 5
          [(generateKey id ("/" ++ "time_entries" ++ "") none, CacheEntry.mk 3 0)])
        (generateKey id ("/" ++ "time_entries" ++ "") none) =
      cacheGet [(generateKey id ("/" ++ "time_entries" ++ "") none, CacheEntry.mk 3 0)]
        (generateKey id ("/" ++ "time_entries" ++ "") none)) ∧
    (∀ (m₂ p₂ : String) (pr₂ : Option (List (String × PVal))) (st : ℕ)
        (c₂ : List (String × CacheEntry ℕ)),
      requestCacheEffect id m₂ p₂ pr₂ (HttpOutcome.httpError st) 5 c₂ = c₂ ∧
      requestCacheEffect id m₂ p₂ pr₂ HttpOutcome.noContent 5 c₂ = c₂) :=
  request_cache_effects id "PATCH" "/time_entries/7" "time_entries" "time_entries" "" none none
    0 5 [(generateKey id ("/" ++ "time_entries" ++ "") none, CacheEntry.mk 3 0)]
    (by decide) (by decide) (by decide) (by decide)

/-! ### Entity resolution (EntityResolver, src/entities/entity-resolver.ts)

String normalization, similarity scoring, and the resolve pipeline.  JS string
operations are implemented on the character list; `\s` is modelled by
`Char.isWhitespace` and `toLowerCase` by `Char.toLower` (the names at stake
are ASCII).  The Levenshtein matrix of the source is embedded as the standard
edit-distance recurrence it memoizes. -/

namespace EntityResolver

def toLowerStr (s : String) : String := ⟨s.data.map Char.toLower⟩

def isWsChar (c : Char) : Bool := c.isWhitespace

def dropLeadingWs : List Char → List Char
  | [] => []
  | c :: rest => if isWsChar c then dropLeadingWs rest else c :: rest

def dropTrailingWs (l : List Char) : List Char := (dropLeadingWs l.reverse).reverse

/-- JS String.trim. -/
def trimStr (s : String) : String := ⟨dropTrailingWs (dropLeadingWs s.data)⟩

/-- The COMPANY_SUFFIXES regexes, in source order; each regex's alternation is
listed with the dot-bearing variant first, as the greedy `\.?` matches it
first. -/
def suffixGroups : List (List String) :=
  [["inc.", "inc", "incorporated"],
   ["llc", "l.l.c."],
   ["ltd.", "ltd", "limited"],
   ["corp.", "corp", "corporation"],
   ["co.", "co", "company"],
   ["plc"], ["gmbh"], ["ag"]]

/-- One regex alternative `\s+v$` applied as a replacement by the empty string:
succeeds when the text ends with `v` preceded by at least one whitespace
character, removing `v` and the whole whitespace run. -/
def stripOneSuffix (l : List Char) (v : String) : Option (List Char) :=
  if v.data.isSuffixOf l then
    let before := l.take (l.length - v.data.length)
    let stripped := dropTrailingWs before
    if stripped.length < before.length then some stripped else none
  else none

def applySuffixGroup (l : List Char) (group : List String) : List Char :=
  match group with
  | [] => l
  | v :: rest =>
      match stripOneSuffix l v with
      | some l2 => l2
      | none => applySuffixGroup l rest

def stripCompanySuffixes (l : List Char) : List Char :=
  suffixGroups.foldl applySuffixGroup l

/-- Helper for `collapseWs`: the Bool records whether the previous character
was part of a whitespace run already emitted as one space. -/
def collapseWsAux : Bool → List Char → List Char
  | _, [] => []
  | inWs, c :: rest =>
      if isWsChar c then
        if inWs then collapseWsAux true rest else ' ' :: collapseWsAux true rest
      else c :: collapseWsAux false rest

/-- JS `replace(/\s+/g, ' ')`: collapse every whitespace run to one space. -/
def collapseWs (l : List Char) : List Char := collapseWsAux false l

/-- JS `replace(/[.,'"]/g, '')`. -/
def isPunct (c : Char) : Bool :=
  (c = '.') ∨ (c = ',') ∨ (c = Char.ofNat 39) ∨ (c = Char.ofNat 34)

/-- EntityResolver.normalize: lowercase and trim, strip company suffixes,
collapse whitespace and trim again, remove punctuation. -/
def normalize (s : String) : String :=
  let a := trimStr (toLowerStr s)
  let b := stripCompanySuffixes a.data
  let c := dropTrailingWs (dropLeadingWs (collapseWs b))
  ⟨(c.filter (fun ch => ! isPunct ch))⟩

/-- Standard Levenshtein edit distance; the DP matrix of
EntityResolver.levenshteinDistance memoizes exactly this recurrence. -/
def levenshtein : List Char → List Char → ℕ
  | [], ys => ys.length
  | xs, [] => xs.length
  | x :: xs, y :: ys =>
      if x = y then levenshtein xs ys
      else 1 + min (levenshtein xs ys) (min (levenshtein xs (y :: ys)) (levenshtein (x :: xs) ys))
termination_by xs ys => xs.length + ys.length
decreasing_by all_goals simp only [List.length_cons]; omega

inductive MatchType where
  | exact
  | normalized
  | partialMatch
  | fuzzy
deriving Repr, DecidableEq

/-- EntityResolver.calculateSimilarity: case-insensitive equality is an exact
match (1.0); equality after normalization scores 0.95; substring containment
either way scores `0.7 + 0.2 * min(len)/max(len)`; otherwise Levenshtein
distance over normalized strings scores `max 0 (1 - distance/maxLen)`. -/
def calculateSimilarity (query target : String) : ℚ × MatchType :=
  let normalizedQuery := normalize query
  let normalizedTarget := normalize target
  if toLowerStr query = toLowerStr target then
    (1, .exact)
  else if normalizedQuery = normalizedTarget then
    (0.95, .normalized)
  else if normalizedQuery.data.IsInfix normalizedTarget.data ∨
      normalizedTarget.data.IsInfix normalizedQuery.data then
    let ratio : ℚ := (min normalizedQuery.data.length normalizedTarget.data.length : ℚ) /
      (max normalizedQuery.data.length normalizedTarget.data.length : ℚ)
    (0.7 + ratio * 0.2, .partialMatch)
  else
    let distance := levenshtein normalizedQuery.data normalizedTarget.data
    let maxLength := max normalizedQuery.data.length normalizedTarget.data.length
    (max 0 (1 - (distance : ℚ) / (maxLength : ℚ)), .fuzzy)

end EntityResolver

/-- C6.  A query equal to the stored name up to case yields an exact match
with confidence 1.0; a query equal to the stored name only after
normalization (legal-entity suffix and punctuation stripping) yields a
normalized match with confidence 0.95. -/
theorem calculateSimilarity_acme :
    EntityResolver.calculateSimilarity "Acme" "Acme" = (1, EntityResolver.MatchType.exact) ∧
    EntityResolver.calculateSimilarity "Acme" "Acme Inc." =
      (0.95, EntityResolver.MatchType.normalized) := by
  constructor
  · simp only [EntityResolver.calculateSimilarity]
    rw [if_pos (by decide)]
  · simp only [EntityResolver.calculateSimilarity]
    rw [if_neg (by decide), if_pos (by decide)]

namespace EntityResolver

inductive EntityType where
  | client
  | project
  | user
  | task
deriving Repr, DecidableEq

structure ProjectEntry where
  id : ℕ
  name : String
  client_id : ℕ
  client_name : String
deriving Repr, DecidableEq

/-- The four directory lists fetched by refreshCache (clients, active projects,
active users with first+last name joined, active tasks). -/
structure EntityDirectory where
  clients : List (ℕ × String)
  projects : List ProjectEntry
  users : List (ℕ × String)
  tasks : List (ℕ × String)
deriving Repr, DecidableEq

structure ResolverCache where
  dir : EntityDirectory
  fetched_at : ℤ
deriving Repr, DecidableEq

structure ResolverState where
  cache : Option ResolverCache
  cacheMaxAge : ℤ
deriving Repr, DecidableEq

/-- EntityResolver.isCacheValid: a snapshot exists and its age is strictly
below the TTL. -/
def isCacheValid (st : ResolverState) (now : ℤ) : Bool :=
  match st.cache with
  | none => false
  | some c => decide (now - c.fetched_at < st.cacheMaxAge)

/-- EntityResolver.ensureCache: refresh the snapshot when invalid.  The fetch
through the gateway is an external input `fetched`; refreshCache stamps it
with the current time. -/
def ensureCache (fetched : EntityDirectory) (st : ResolverState) (now : ℤ) : ResolverState :=
  if isCacheValid st now then st else { st with cache := some ⟨fetched, now⟩ }

structure ResolvedEntity where
  type : EntityType
  id : ℕ
  name : String
  confidence : ℚ
  match_type : MatchType
  parent_id : Option ℕ := none
  parent_name : Option String := none
deriving Repr, DecidableEq

structure ResolutionResponse where
  query : String
  results : List ResolvedEntity
  total_matches : ℕ
  cached : Bool
  search_types : List EntityType
deriving Repr, DecidableEq

/-- Comparator `(a, b) => b.confidence - a.confidence`: descending by
confidence. -/
def confidenceDesc (a b : ResolvedEntity) : Prop := b.confidence ≤ a.confidence

instance : DecidableRel confidenceDesc :=
  fun a b => inferInstanceAs (Decidable (b.confidence ≤ a.confidence))

/-- Cap results per entity type at `limit`, keeping sorted order. -/
def limitPerType (limit : ℕ) (results : List ResolvedEntity) : List ResolvedEntity :=
  (results.foldl
    (fun (acc : List ResolvedEntity × (EntityType → ℕ)) r =>
      if acc.2 r.type < limit then
        (acc.1 ++ [r], fun t => if t = r.type then acc.2 t + 1 else acc.2 t)
      else acc)
    ([], fun _ => 0)).1

/-- The per-type candidate scans of EntityResolver.resolve, in source order
(clients, projects, users, tasks); a candidate is kept when its score reaches
`min_confidence`.  Projects are scored against both the bare name and
`client_name - name`, keeping the larger score and the bare-name match type. -/
def searchAll (dir : EntityDirectory) (query : String) (types : List EntityType)
    (min_confidence : ℚ) : List ResolvedEntity :=
  (if types.contains .client then
    dir.clients.filterMap (fun c =>
      let sm := calculateSimilarity query c.2
      if min_confidence ≤ sm.1 then
        some { type := .client, id := c.1, name := c.2, confidence := sm.1, match_type := sm.2 }
      else none)
  else []) ++
  (if types.contains .project then
    dir.projects.filterMap (fun p =>
      let sm := calculateSimilarity query p.name
      let sf := calculateSimilarity query (p.client_name ++ " - " ++ p.name)
      let score := max sm.1 sf.1
      if min_confidence ≤ score then
        some { type := .project, id := p.id, name := p.name, confidence := score,
               match_type := sm.2, parent_id := some p.client_id,
               parent_name := some p.client_name }
      else none)
  else []) ++
  (if types.contains .user then
    dir.users.filterMap (fun u =>
      let sm := calculateSimilarity query u.2
      if min_confidence ≤ sm.1 then
        some { type := .user, id := u.1, name := u.2, confidence := sm.1, match_type := sm.2 }
      else none)
  else []) ++
  (if types.contains .task then
    dir.tasks.filterMap (fun t =>
      let sm := calculateSimilarity query t.2
      if min_confidence ≤ sm.1 then
        some { type := .task, id := t.1, name := t.2, confidence := sm.1, match_type := sm.2 }
      else none)
  else [])

/-- EntityResolver.resolve: ensure the snapshot, recheck its validity for the
`cached` flag, scan all requested types, sort by confidence descending, cap
per type, and report `total_matches` before the cap. -/
def resolveRun (fetched : EntityDirectory) (st : ResolverState) (now : ℤ) (query : String)
    (types : List EntityType := [.client, .project, .user, .task])
    (min_confidence : ℚ := 0.5) (limit : ℕ := 5) : ResolutionResponse × ResolverState :=
  let st2 := ensureCache fetched st now
  let dir :=
    match st2.cache with
    | some c => c.dir
    | none => ⟨[], [], [], []⟩
  let wasCached := isCacheValid st2 now
  let results := searchAll dir query types min_confidence
  let sorted := List.insertionSort confidenceDesc results
  ({ query := query, results := limitPerType limit sorted, total_matches := results.length,
     cached := wasCached, search_types := types }, st2)

end EntityResolver

/-- C10.  Whenever the snapshot TTL is positive, every resolve call reports
`cached = true`: the flag is recomputed after ensureCache has just validated
or refreshed the snapshot at the same instant, so a caller can never observe
`cached = false` and cannot distinguish a fresh fetch from a reused
snapshot. -/
theorem resolve_reports_cached_true (fetched : EntityResolver.EntityDirectory)
    (st : EntityResolver.ResolverState) (now : ℤ) (query : String)
    (types : List EntityResolver.EntityType) (minc : ℚ) (limit : ℕ)
    (httl : 0 < st.cacheMaxAge) :
    (EntityResolver.resolveRun fetched st now query types minc limit).1.cached = true := by
  have key : EntityResolver.isCacheValid (EntityResolver.ensureCache fetched st now) now
      = true := by
    rw [EntityResolver.ensureCache]
    by_cases h : EntityResolver.isCacheValid st now = true
    · rw [if_pos h]
      exact h
    · rw [if_neg h, EntityResolver.isCacheValid]
      simp only [decide_eq_true_eq]
      omega
  simp only [EntityResolver.resolveRun]
  exact key

/-- Witness for C10: a fresh resolver (no snapshot) with a 5-minute TTL still
reports cached = true. -/
theorem resolve_reports_cached_true_witness :
    (EntityResolver.resolveRun ⟨[(1, "Acme")], [], [], []⟩ ⟨none, 300000⟩ 0 "Acme"
      [EntityResolver.EntityType.client] 0.5 5).1.cached = true :=
  resolve_reports_cached_true ⟨[(1, "Acme")], [], [], []⟩ ⟨none, 300000⟩ 0 "Acme"
    [EntityResolver.EntityType.client] 0.5 5 (by decide)

/-! ### Compute module: shared records, grouping, and rounding
(src/compute/aggregation.ts, src/compute/utilization.ts)

A normalized time entry carries the fields the calculators read; the nested
`user`/`client`/`project`/`task` identity objects are flattened into id/name
pairs.  JS `Math.round(x*100)/100` rounds half away from zero for the
nonnegative quantities at stake, which `round` matches. -/

structure TimeEntryRec where
  id : ℕ
  spent_date : String
  hours : ℚ
  rounded_hours : ℚ
  billable : Bool
  is_billed : Bool
  billable_rate : Option ℚ
  cost_rate : Option ℚ
  user_id : ℕ
  user_name : String
  client_id : ℕ
  client_name : String
  project_id : ℕ
  project_name : String
  task_id : ℕ
  task_name : String
deriving Repr, DecidableEq

inductive GroupBy where
  | client
  | project
  | user
  | task
  | date
  | week
  | month
deriving Repr, DecidableEq

/-- JS `Math.round(num * 100) / 100`. -/
def round2 (q : ℚ) : ℚ := (round (q * 100) : ℚ) / 100

/-- Decimal digits of a natural number, with explicit fuel (enough for every
identifier in scope). -/
def natDigits (fuel n : ℕ) : List Char :=
  match fuel with
  | 0 => []
  | fuel + 1 =>
      if n < 10 then [Char.ofNat (48 + n)]
      else natDigits fuel (n / 10) ++ [Char.ofNat (48 + n % 10)]

def natStr (n : ℕ) : String := ⟨natDigits 12 n⟩

/-- Civil date to days since 1970-01-01 (proleptic Gregorian), used to model
the JS Date arithmetic of getWeekStart. -/
def daysFromCivil (y m d : ℤ) : ℤ :=
  let y2 := if m ≤ 2 then y - 1 else y
  let era := (if 0 ≤ y2 then y2 else y2 - 399) / 400
  let yoe := y2 - era * 400
  let mp := (m + 9) % 12
  let doy := (153 * mp + 2) / 5 + d - 1
  let doe := yoe * 365 + yoe / 4 - yoe / 100 + doy
  era * 146097 + doe - 719468

/-- Days since 1970-01-01 back to the civil date. -/
def civilFromDays (z : ℤ) : ℤ × ℤ × ℤ :=
  let z2 := z + 719468
  let era := (if 0 ≤ z2 then z2 else z2 - 146096) / 146097
  let doe := z2 - era * 146097
  let yoe := (doe - doe / 1460 + doe / 36524 - doe / 146096) / 365
  let y := yoe + era * 400
  let doy := doe - (365 * yoe + yoe / 4 - yoe / 100)
  let mp := (5 * doy + 2) / 153
  let d := doy - (153 * mp + 2) / 5 + 1
  let m := if mp < 10 then mp + 3 else mp - 9
  (if m ≤ 2 then y + 1 else y, m, d)

def digitVal (c : Char) : ℕ := c.toNat - 48

def parseNat (l : List Char) : ℕ := l.foldl (fun acc c => acc * 10 + digitVal c) 0

/-- Parse a `YYYY-MM-DD` string. -/
def parseDate (s : String) : ℤ × ℤ × ℤ :=
  match splitListOn '-' s.data with
  | [ys, ms, ds] => ((parseNat ys : ℤ), (parseNat ms : ℤ), (parseNat ds : ℤ))
  | _ => (1970, 1, 1)

def padLeft (c : Char) (w : ℕ) (l : List Char) : List Char :=
  List.replicate (w - l.length) c ++ l

def formatDate (y m d : ℤ) : String :=
  ⟨padLeft '0' 4 (natDigits 12 y.toNat) ++ '-' ::
    (padLeft '0' 2 (natDigits 12 m.toNat) ++ '-' :: padLeft '0' 2 (natDigits 12 d.toNat))⟩

/-- getWeekStart: the Monday of the week of the given date
(`date - day + (day === 0 ? -6 : 1)` in day-of-month arithmetic). -/
def getWeekStart (dateStr : String) : String :=
  match parseDate dateStr with
  | (y, m, d) =>
      let z := daysFromCivil y m d
      let wd := (z + 4) % 7
      let monday := z - ((wd + 6) % 7)
      match civilFromDays monday with
      | (y2, m2, d2) => formatDate y2 m2 d2

inductive GroupId where
  | num (n : ℕ)
  | str (s : String)
deriving Repr, DecidableEq

/-- The `{key, name, id}` triple of getGroupKey. -/
structure GroupKeyInfo where
  key : String
  name : String
  id : GroupId
deriving Repr, DecidableEq

/-- getGroupKey, identical in TimeAggregationCalculator, ProfitabilityCalculator
and UtilizationCalculator. -/
def getGroupKey (e : TimeEntryRec) : GroupBy → GroupKeyInfo
  | .client => ⟨"client:" ++ natStr e.client_id, e.client_name, .num e.client_id⟩
  | .project => ⟨"project:" ++ natStr e.project_id, e.project_name, .num e.project_id⟩
  | .user => ⟨"user:" ++ natStr e.user_id, e.user_name, .num e.user_id⟩
  | .task => ⟨"task:" ++ natStr e.task_id, e.task_name, .num e.task_id⟩
  | .date => ⟨"date:" ++ e.spent_date, e.spent_date, .str e.spent_date⟩
  | .week =>
      ⟨"week:" ++ getWeekStart e.spent_date, "Week of " ++ getWeekStart e.spent_date,
        .str (getWeekStart e.spent_date)⟩
  | .month =>
      ⟨"month:" ++ takeStr 7 e.spent_date, takeStr 7 e.spent_date, .str (takeStr 7 e.spent_date)⟩

/-- One step of the `Map`-building loop: append the record to its group when
the key is present, otherwise create the group at the end (JS Map preserves
insertion order). -/
def insertGrouped {E : Type} (gs : List (GroupKeyInfo × List E)) (info : GroupKeyInfo) (e : E) :
    List (GroupKeyInfo × List E) :=
  match gs with
  | [] => [(info, [e])]
  | (i, es) :: rest =>
      if i.key = info.key then (i, es ++ [e]) :: rest
      else (i, es) :: insertGrouped rest info e

/-- The grouping step shared by the three calculators: partition the records by
the primary dimension's key. -/
def groupEntries {E : Type} (keyinfo : E → GroupKeyInfo) (entries : List E) :
    List (GroupKeyInfo × List E) :=
  entries.foldl (fun gs e => insertGrouped gs (keyinfo e) e) []

/-! ### Time aggregation (TimeAggregationCalculator, src/compute/aggregation.ts) -/

/-- Per-entry accumulations of calculateMetrics, written as weighted sums: the
loop adds `hours`/`rounded_hours` for every entry and the billable-conditional
quantities only when `entry.billable`. -/
def rawHours (entries : List TimeEntryRec) : ℚ := (entries.map (fun e => e.hours)).sum

def rawRoundedHours (entries : List TimeEntryRec) : ℚ :=
  (entries.map (fun e => e.rounded_hours)).sum

def rawBillableHours (entries : List TimeEntryRec) : ℚ :=
  (entries.map (fun e => if e.billable then e.hours else 0)).sum

def rawNonBillableHours (entries : List TimeEntryRec) : ℚ :=
  (entries.map (fun e => if e.billable then 0 else e.hours)).sum

def rawBillableAmount (entries : List TimeEntryRec) : ℚ :=
  (entries.map (fun e => if e.billable then e.hours * (e.billable_rate.getD 0) else 0)).sum

structure TimeAggregationMetrics where
  hours : ℚ
  rounded_hours : ℚ
  billable_hours : ℚ
  non_billable_hours : ℚ
  entry_count : ℕ
  billable_amount : ℚ
deriving Repr, DecidableEq

/-- TimeAggregationCalculator.calculateMetrics: the accumulated sums, each
rounded to 2 decimals, plus the entry count. -/
def calculateMetricsAgg (entries : List TimeEntryRec) : TimeAggregationMetrics :=
  { hours := round2 (rawHours entries),
    rounded_hours := round2 (rawRoundedHours entries),
    billable_hours := round2 (rawBillableHours entries),
    non_billable_hours := round2 (rawNonBillableHours entries),
    entry_count := entries.length,
    billable_amount := round2 (rawBillableAmount entries) }

structure AggNode where
  grouping : GroupKeyInfo
  metrics : TimeAggregationMetrics
  children : List AggNode

/-- Sibling sort order of the aggregation tree:
`(a, b) => b.metrics.hours - a.metrics.hours`. -/
def aggHoursDesc (a b : AggNode) : Prop := b.metrics.hours ≤ a.metrics.hours

instance : DecidableRel aggHoursDesc :=
  fun a b => inferInstanceAs (Decidable (b.metrics.hours ≤ a.metrics.hours))

/-- TimeAggregationCalculator.groupResults: partition by the first dimension,
compute metrics per group, recurse on the remaining dimensions inside each
group (children are empty when no dimensions remain), sort siblings by hours
descending. -/
def groupResultsAgg (dims : List GroupBy) (entries : List TimeEntryRec) : List AggNode :=
  match dims with
  | [] => []
  | d :: ds =>
      let gs := groupEntries (fun e => getGroupKey e d) entries
      List.insertionSort aggHoursDesc
        (gs.map (fun g => AggNode.mk g.1 (calculateMetricsAgg g.2) (groupResultsAgg ds g.2)))

/-! ### Profitability (ProfitabilityCalculator, src/compute/utilization.ts) -/

/-- Invoice states; `open` is a Lean keyword, so that constructor is named
`opened`. -/
inductive InvoiceState where
  | draft
  | opened
  | paid
  | closed
deriving Repr, DecidableEq

structure InvoiceRec where
  id : ℕ
  client_id : ℕ
  amount : ℚ
  state : InvoiceState
deriving Repr, DecidableEq

structure ProfitabilityMetrics where
  hours : ℚ
  billable_hours : ℚ
  non_billable_hours : ℚ
  billable_amount : ℚ
  cost : ℚ
  profit : ℚ
  margin_percent : ℚ
  effective_rate : ℚ
  cost_rate_avg : ℚ
deriving Repr, DecidableEq

/-- ProfitabilityCalculator.buildMetrics: derived quantities with
divide-by-zero guards, then rounding to 2 decimals. -/
def buildMetrics (hours billableHours nonBillableHours billableAmount cost : ℚ) :
    ProfitabilityMetrics :=
  { hours := round2 hours,
    billable_hours := round2 billableHours,
    non_billable_hours := round2 nonBillableHours,
    billable_amount := round2 billableAmount,
    cost := round2 cost,
    profit := round2 (billableAmount - cost),
    margin_percent :=
      round2 (if 0 < billableAmount then (billableAmount - cost) / billableAmount * 100 else 0),
    effective_rate := round2 (if 0 < billableHours then billableAmount / billableHours else 0),
    cost_rate_avg := round2 (if 0 < hours then cost / hours else 0) }

/-- `rateMap.get(user_id)` over the user → cost-rate map. -/
def rateLookup (m : List (ℕ × ℚ)) (uid : ℕ) : Option ℚ :=
  (m.find? (fun kv => decide (kv.1 = uid))).map Prod.snd

/-- `entry.cost_rate ?? rateMap.get(entry.user.id) ?? 0`. -/
def resolveCostRate (e : TimeEntryRec) (rateMap : List (ℕ × ℚ)) : ℚ :=
  match e.cost_rate with
  | some c => c
  | none => (rateLookup rateMap e.user_id).getD 0

def missingRateWarning (e : TimeEntryRec) : String :=
  "No cost rate found for user " ++ e.user_name ++ " (ID: " ++ natStr e.user_id ++ ")"

/-- Loop state of calculateTimeBased. -/
structure TBAcc where
  hours : ℚ
  billableHours : ℚ
  nonBillableHours : ℚ
  billableAmount : ℚ
  cost : ℚ
  warnings : List String
deriving Repr

/-- Loop body of calculateTimeBased: accumulate hours and billable amount,
then cost over billable (or all, with `includeNonBillable`) entries, recording
one de-duplicated warning per user with a missing (zero) cost rate. -/
def tbStep (rateMap : List (ℕ × ℚ)) (includeNonBillable : Bool) (acc : TBAcc)
    (e : TimeEntryRec) : TBAcc :=
  let acc1 := { acc with hours := acc.hours + e.hours }
  let acc2 :=
    if e.billable then
      { acc1 with billableHours := acc1.billableHours + e.hours,
                  billableAmount := acc1.billableAmount + e.hours * (e.billable_rate.getD 0) }
    else
      { acc1 with nonBillableHours := acc1.nonBillableHours + e.hours }
  if e.billable || includeNonBillable then
    let costRate := resolveCostRate e rateMap
    let acc3 :=
      if costRate = 0 ∧ 0 < e.hours ∧
          ¬ (acc2.warnings.any
            (fun w => decide (("user " ++ e.user_name).data.IsInfix w.data))) then
        { acc2 with warnings := acc2.warnings ++ [missingRateWarning e] }
      else acc2
    { acc3 with cost := acc3.cost + e.hours * costRate }
  else acc2

/-- ProfitabilityCalculator.calculateTimeBased. -/
def calculateTimeBased (entries : List TimeEntryRec) (rateMap : List (ℕ × ℚ))
    (includeNonBillable : Bool) (warnings0 : List String) :
    ProfitabilityMetrics × List String :=
  let acc := entries.foldl (tbStep rateMap includeNonBillable)
    ⟨0, 0, 0, 0, 0, warnings0⟩
  (buildMetrics acc.hours acc.billableHours acc.nonBillableHours acc.billableAmount acc.cost,
   acc.warnings)

/-- Sum of non-draft invoice amounts. -/
def invoiceRevenue (invoices : List InvoiceRec) : ℚ :=
  (invoices.map (fun inv => if inv.state = .draft then 0 else inv.amount)).sum

/-- Loop state of calculateInvoiceBased. -/
structure IBAcc where
  hours : ℚ
  billableHours : ℚ
  nonBillableHours : ℚ
  cost : ℚ
deriving Repr

def ibStep (rateMap : List (ℕ × ℚ)) (includeNonBillable : Bool) (acc : IBAcc)
    (e : TimeEntryRec) : IBAcc :=
  let acc1 := { acc with hours := acc.hours + e.hours }
  let acc2 :=
    if e.billable then { acc1 with billableHours := acc1.billableHours + e.hours }
    else { acc1 with nonBillableHours := acc1.nonBillableHours + e.hours }
  if e.billable || includeNonBillable then
    { acc2 with cost := acc2.cost + e.hours * resolveCostRate e rateMap }
  else acc2

/-- ProfitabilityCalculator.calculateInvoiceBased: revenue is the non-draft
invoice total; hours and costs come from the entries; an empty invoice list
appends a warning. -/
def calculateInvoiceBased (entries : List TimeEntryRec) (invoices : List InvoiceRec)
    (rateMap : List (ℕ × ℚ)) (includeNonBillable : Bool) (warnings0 : List String) :
    ProfitabilityMetrics × List String :=
  let acc := entries.foldl (ibStep rateMap includeNonBillable) ⟨0, 0, 0, 0⟩
  let warnings :=
    if invoices.length = 0 then
      warnings0 ++ ["No invoices found for the date range; revenue is $0"]
    else warnings0
  (buildMetrics acc.hours acc.billableHours acc.nonBillableHours (invoiceRevenue invoices)
    acc.cost, warnings)

/-- Loop state of calculateHybrid. -/
structure HYAcc where
  hours : ℚ
  billableHours : ℚ
  nonBillableHours : ℚ
  timeBasedAmount : ℚ
  cost : ℚ
  billedHours : ℚ
  unbilledHours : ℚ
deriving Repr

def hyStep (rateMap : List (ℕ × ℚ)) (includeNonBillable : Bool) (acc : HYAcc)
    (e : TimeEntryRec) : HYAcc :=
  let acc1 := { acc with hours := acc.hours + e.hours }
  let acc2 :=
    if e.billable then
      if e.is_billed then
        { acc1 with billableHours := acc1.billableHours + e.hours,
                    billedHours := acc1.billedHours + e.hours }
      else
        { acc1 with billableHours := acc1.billableHours + e.hours,
                    unbilledHours := acc1.unbilledHours + e.hours,
                    timeBasedAmount :=
                      acc1.timeBasedAmount + e.hours * (e.billable_rate.getD 0) }
    else { acc1 with nonBillableHours := acc1.nonBillableHours + e.hours }
  if e.billable || includeNonBillable then
    { acc2 with cost := acc2.cost + e.hours * resolveCostRate e rateMap }
  else acc2

/-- ProfitabilityCalculator.calculateHybrid: revenue is the non-draft invoice
total plus time-based amounts of unbilled billable entries.  The mixed
billed/unbilled warning's numeric interpolation is elided. -/
def calculateHybrid (entries : List TimeEntryRec) (invoices : List InvoiceRec)
    (rateMap : List (ℕ × ℚ)) (includeNonBillable : Bool) (warnings0 : List String) :
    ProfitabilityMetrics × List String :=
  let acc := entries.foldl (hyStep rateMap includeNonBillable) ⟨0, 0, 0, 0, 0, 0, 0⟩
  let warnings :=
    if 0 < acc.billedHours ∧ 0 < acc.unbilledHours then
      warnings0 ++ ["Hybrid calculation: billed hours (invoice-based) and unbilled hours (time-based)"]
    else warnings0
  (buildMetrics acc.hours acc.billableHours acc.nonBillableHours
    (invoiceRevenue invoices + acc.timeBasedAmount) acc.cost, warnings)

inductive ProfitMode where
  | time_based
  | invoice_based
  | hybrid
deriving Repr, DecidableEq

/-- Mode dispatch of ProfitabilityCalculator. -/
def calcByMode (mode : ProfitMode) (entries : List TimeEntryRec) (invoices : List InvoiceRec)
    (rateMap : List (ℕ × ℚ)) (includeNonBillable : Bool) (warnings0 : List String) :
    ProfitabilityMetrics × List String :=
  match mode with
  | .time_based => calculateTimeBased entries rateMap includeNonBillable warnings0
  | .invoice_based => calculateInvoiceBased entries invoices rateMap includeNonBillable warnings0
  | .hybrid => calculateHybrid entries invoices rateMap includeNonBillable warnings0

structure ProfitNode where
  grouping : GroupKeyInfo
  metrics : ProfitabilityMetrics
  children : List ProfitNode

/-- Invoices assigned to a group: only when the primary dimension is `client`
does an invoice land in the group whose key is `client:` + its client id; for
every other dimension the group's invoice list is empty. -/
def invoicesForGroup (primary : GroupBy) (invoices : List InvoiceRec) (k : GroupKeyInfo) :
    List InvoiceRec :=
  if primary = .client then
    invoices.filter (fun inv => decide (k.key = "client:" ++ natStr inv.client_id))
  else []

/-- Sibling sort order of the profitability tree:
`(a, b) => b.metrics.billable_amount - a.metrics.billable_amount`. -/
def profitAmountDesc (a b : ProfitNode) : Prop :=
  b.metrics.billable_amount ≤ a.metrics.billable_amount

instance : DecidableRel profitAmountDesc :=
  fun a b => inferInstanceAs (Decidable (b.metrics.billable_amount ≤ a.metrics.billable_amount))

/-- ProfitabilityCalculator.groupResults: partition entries by the primary
dimension, assign invoices to client groups only, compute per-group metrics
with a fresh warnings array, recurse with the group's entries and the group's
invoices, sort siblings by billable amount descending. -/
def profitGroupResults (mode : ProfitMode) (rateMap : List (ℕ × ℚ))
    (includeNonBillable : Bool) (dims : List GroupBy) (entries : List TimeEntryRec)
    (invoices : List InvoiceRec) : List ProfitNode :=
  match dims with
  | [] => []
  | d :: ds =>
      let gs := groupEntries (fun e => getGroupKey e d) entries
      List.insertionSort profitAmountDesc
        (gs.map (fun g =>
          ProfitNode.mk g.1
            (calcByMode mode g.2 (invoicesForGroup d invoices g.1) rateMap includeNonBillable []).1
            (profitGroupResults mode rateMap includeNonBillable ds g.2
              (invoicesForGroup d invoices g.1))))

/-! ### Utilization (UtilizationCalculator, src/compute/utilization.ts) -/

structure UtilizationMetrics where
  total_hours : ℚ
  billable_hours : ℚ
  non_billable_hours : ℚ
  capacity_hours : ℚ
  utilization_percent : ℚ
  billable_utilization_percent : ℚ
  billable_ratio_percent : ℚ
  working_days : ℕ
deriving Repr, DecidableEq

/-- Weekday of a day number (days since 1970-01-01, a Thursday): 0 = Sunday,
6 = Saturday, matching JS `Date.getDay`. -/
def weekdayOf (d : ℤ) : ℤ := (d + 4) % 7

/-- UtilizationCalculator.calculateWorkingDays: iterate the inclusive day
range, counting every day, or only non-weekend days when configured.  Dates
are day numbers (the JS code iterates Date objects day by day). -/
def calculateWorkingDays (fromD toD : ℤ) (excludeWeekends : Bool) : ℕ :=
  ((List.range (toD - fromD + 1).toNat).map (fun i => fromD + (i : ℤ))).countP
    (fun d => if excludeWeekends then decide (¬ (weekdayOf d = 0 ∨ weekdayOf d = 6)) else true)

/-- `user_id ? 1 : new Set(entries.map(e => e.user.id)).size`. -/
def activeUsers (entries : List TimeEntryRec) (user_id : Option ℕ) : ℕ :=
  match user_id with
  | some _ => 1
  | none => ((entries.map (fun e => e.user_id)).dedup).length

/-- `workingDays * capacity_hours_per_day * activeUsersCount`. -/
def totalCapacity (entries : List TimeEntryRec) (user_id : Option ℕ) (fromD toD : ℤ)
    (capacityHoursPerDay : ℚ) (excludeWeekends : Bool) : ℚ :=
  (calculateWorkingDays fromD toD excludeWeekends : ℚ) * capacityHoursPerDay *
    (activeUsers entries user_id : ℚ)

/-- UtilizationCalculator.calculateMetrics: summed hours, the capacity, and the
three percentages with their capacity/total-hours guards, each rounded to two
decimals. -/
def calculateMetricsUtil (entries : List TimeEntryRec) (capacityHours : ℚ)
    (workingDays : ℕ) : UtilizationMetrics :=
  { total_hours := round2 (rawHours entries),
    billable_hours := round2 (rawBillableHours entries),
    non_billable_hours := round2 (rawNonBillableHours entries),
    capacity_hours := round2 capacityHours,
    utilization_percent :=
      round2 (if 0 < capacityHours then rawHours entries / capacityHours * 100 else 0),
    billable_utilization_percent :=
      round2 (if 0 < capacityHours then rawBillableHours entries / capacityHours * 100 else 0),
    billable_ratio_percent :=
      round2 (if 0 < rawHours entries then rawBillableHours entries / rawHours entries * 100
        else 0),
    working_days := workingDays }

/-- The capacity-related core of UtilizationCalculator.calculate (after the
entries and users are fetched). -/
structure UtilCore where
  working_days : ℕ
  users_included : ℕ
  capacity_hours : ℚ
  totals : UtilizationMetrics
deriving Repr, DecidableEq

def utilizationCalculate (entries : List TimeEntryRec) (user_id : Option ℕ) (fromD toD : ℤ)
    (capacityHoursPerDay : ℚ) (excludeWeekends : Bool) : UtilCore :=
  { working_days := calculateWorkingDays fromD toD excludeWeekends,
    users_included := activeUsers entries user_id,
    capacity_hours := totalCapacity entries user_id fromD toD capacityHoursPerDay excludeWeekends,
    totals := calculateMetricsUtil entries
      (totalCapacity entries user_id fromD toD capacityHoursPerDay excludeWeekends)
      (calculateWorkingDays fromD toD excludeWeekends) }

theorem insertGrouped_flatten {E : Type} (info : GroupKeyInfo) (e : E) :
    ∀ gs : List (GroupKeyInfo × List E),
      ((insertGrouped gs info e).map Prod.snd).flatten.Perm
        ((gs.map Prod.snd).flatten ++ [e]) := by
  intro gs
  induction gs with
  | nil => simp [insertGrouped]
  | cons g rest ih =>
    obtain ⟨i, es⟩ := g
    rw [insertGrouped]
    by_cases h : i.key = info.key
    · rw [if_pos h]
      simp only [List.map_cons, List.flatten_cons, List.append_assoc]
      exact List.Perm.append_left es List.perm_append_comm
    · rw [if_neg h]
      simp only [List.map_cons, List.flatten_cons, List.append_assoc]
      exact List.Perm.append_left es ih

theorem groupEntries_foldl_flatten {E : Type} (keyinfo : E → GroupKeyInfo) :
    ∀ (entries : List E) (gs : List (GroupKeyInfo × List E)),
      ((entries.foldl (fun gs e => insertGrouped gs (keyinfo e) e) gs).map Prod.snd).flatten.Perm
        ((gs.map Prod.snd).flatten ++ entries) := by
  intro entries
  induction entries with
  | nil => intro gs; simp
  | cons e rest ih =>
    intro gs
    rw [List.foldl_cons]
    refine (ih (insertGrouped gs (keyinfo e) e)).trans ?_
    refine (List.Perm.append_right rest (insertGrouped_flatten (keyinfo e) e gs)).trans ?_
    rw [List.append_assoc, List.singleton_append]

/-- No record dropped, none duplicated: the groups' record lists flatten to a
permutation of the input. -/
theorem groupEntries_flatten_perm {E : Type} (keyinfo : E → GroupKeyInfo) (entries : List E) :
    (((groupEntries keyinfo entries).map Prod.snd).flatten).Perm entries := by
  have h := groupEntries_foldl_flatten keyinfo entries []
  simpa using h

theorem insertGrouped_keyed {E : Type} (keyinfo : E → GroupKeyInfo) (info : GroupKeyInfo)
    (e : E) (hinfo : keyinfo e = info) :
    ∀ gs : List (GroupKeyInfo × List E),
      (∀ g ∈ gs, ∀ x ∈ g.2, (keyinfo x).key = g.1.key) →
      ∀ g ∈ insertGrouped gs info e, ∀ x ∈ g.2, (keyinfo x).key = g.1.key := by
  intro gs
  induction gs with
  | nil =>
    intro _ g hg x hx
    rw [insertGrouped] at hg
    rcases List.mem_singleton.mp hg with rfl
    rcases List.mem_singleton.mp hx with rfl
    rw [hinfo]
  | cons p rest ih =>
    intro hgs g hg x hx
    obtain ⟨i, es⟩ := p
    rw [insertGrouped] at hg
    by_cases h : i.key = info.key
    · rw [if_pos h] at hg
      rcases List.mem_cons.mp hg with rfl | hg2
      · rcases List.mem_append.mp hx with hx1 | hx2
        · exact hgs (i, es) (List.mem_cons_self _ _) x hx1
        · rcases List.mem_singleton.mp hx2 with rfl
          rw [hinfo, ← h]
      · exact hgs g (List.mem_cons_of_mem _ hg2) x hx
    · rw [if_neg h] at hg
      rcases List.mem_cons.mp hg with rfl | hg2
      · exact hgs (i, es) (List.mem_cons_self _ _) x hx
      · exact ih (fun g2 hg2 => hgs g2 (List.mem_cons_of_mem _ hg2)) g hg2 x hx

/-- Every record of a group carries that group's key: a record lands only in
the child of its own key. -/
theorem groupEntries_keyed {E : Type} (keyinfo : E → GroupKeyInfo) (entries : List E) :
    ∀ g ∈ groupEntries keyinfo entries, ∀ x ∈ g.2, (keyinfo x).key = g.1.key := by
  suffices h : ∀ (l : List E) (gs : List (GroupKeyInfo × List E)),
      (∀ g ∈ gs, ∀ x ∈ g.2, (keyinfo x).key = g.1.key) →
      ∀ g ∈ l.foldl (fun gs e => insertGrouped gs (keyinfo e) e) gs, ∀ x ∈ g.2,
        (keyinfo x).key = g.1.key by
    exact h entries [] (by intro g hg; simp at hg)
  intro l
  induction l with
  | nil => intro gs hgs; exact hgs
  | cons e rest ih =>
    intro gs hgs
    rw [List.foldl_cons]
    exact ih (insertGrouped gs (keyinfo e) e) (insertGrouped_keyed keyinfo (keyinfo e) e rfl gs hgs)

theorem insertGrouped_keys_sub {E : Type} (info : GroupKeyInfo) (e : E) :
    ∀ (gs : List (GroupKeyInfo × List E)) (k : String),
      k ∈ (insertGrouped gs info e).map (fun g => g.1.key) →
      k ∈ gs.map (fun g => g.1.key) ∨ k = info.key := by
  intro gs
  induction gs with
  | nil =>
    intro k hk
    rw [insertGrouped] at hk
    rcases List.mem_singleton.mp hk with rfl
    exact Or.inr rfl
  | cons p rest ih =>
    intro k hk
    obtain ⟨i, es⟩ := p
    rw [insertGrouped] at hk
    by_cases h : i.key = info.key
    · rw [if_pos h] at hk
      exact Or.inl hk
    · rw [if_neg h] at hk
      rcases List.mem_cons.mp hk with rfl | hk2
      · exact Or.inl (List.mem_cons_self _ _)
      · rcases ih k hk2 with h1 | h2
        · exact Or.inl (List.mem_cons_of_mem _ h1)
        · exact Or.inr h2

theorem insertGrouped_keys_nodup {E : Type} (info : GroupKeyInfo) (e : E) :
    ∀ gs : List (GroupKeyInfo × List E),
      (gs.map (fun g => g.1.key)).Nodup →
      ((insertGrouped gs info e).map (fun g => g.1.key)).Nodup := by
  intro gs
  induction gs with
  | nil =>
    intro _
    rw [insertGrouped]
    simp
  | cons p rest ih =>
    intro hnd
    obtain ⟨i, es⟩ := p
    rw [List.map_cons, List.nodup_cons] at hnd
    rw [insertGrouped]
    by_cases h : i.key = info.key
    · rw [if_pos h]
      rw [List.map_cons, List.nodup_cons]
      exact hnd
    · rw [if_neg h]
      rw [List.map_cons, List.nodup_cons]
      refine ⟨fun hmem => ?_, ih hnd.2⟩
      rcases insertGrouped_keys_sub info e rest i.key hmem with h1 | h2
      · exact hnd.1 h1
      · exact h h2

/-- Distinct child keys: no two groups share a key. -/
theorem groupEntries_keys_nodup {E : Type} (keyinfo : E → GroupKeyInfo) (entries : List E) :
    ((groupEntries keyinfo entries).map (fun g => g.1.key)).Nodup := by
  suffices h : ∀ (l : List E) (gs : List (GroupKeyInfo × List E)),
      (gs.map (fun g => g.1.key)).Nodup →
      ((l.foldl (fun gs e => insertGrouped gs (keyinfo e) e) gs).map (fun g => g.1.key)).Nodup by
    exact h entries [] (by simp)
  intro l
  induction l with
  | nil => intro gs hgs; exact hgs
  | cons e rest ih =>
    intro gs hgs
    rw [List.foldl_cons]
    exact ih (insertGrouped gs (keyinfo e) e) (insertGrouped_keys_nodup (keyinfo e) e gs hgs)

/-- Sums of any per-record quantity are preserved exactly by the grouping
step: the groups' (unrounded) totals add up to the whole set's total. -/
theorem groupEntries_sum_eq {E : Type} (keyinfo : E → GroupKeyInfo) (entries : List E)
    (f : E → ℚ) :
    ((groupEntries keyinfo entries).map (fun g => (g.2.map f).sum)).sum =
      (entries.map f).sum := by
  have hperm := (groupEntries_flatten_perm keyinfo entries).map f
  calc ((groupEntries keyinfo entries).map (fun g => (g.2.map f).sum)).sum
      = ((((groupEntries keyinfo entries).map Prod.snd).map (List.map f)).map List.sum).sum := by
        rw [List.map_map, List.map_map]
        rfl
    _ = ((((groupEntries keyinfo entries).map Prod.snd).map (List.map f)).flatten).sum := by
        rw [List.sum_flatten]
    _ = ((((groupEntries keyinfo entries).map Prod.snd).flatten).map f).sum := by
        rw [List.map_flatten]
    _ = (entries.map f).sum := hperm.sum_eq

/-- Entry counts are preserved exactly by the grouping step. -/
theorem groupEntries_length_eq {E : Type} (keyinfo : E → GroupKeyInfo) (entries : List E) :
    ((groupEntries keyinfo entries).map (fun g => g.2.length)).sum = entries.length := by
  have hperm := groupEntries_flatten_perm keyinfo entries
  calc ((groupEntries keyinfo entries).map (fun g => g.2.length)).sum
      = (((groupEntries keyinfo entries).map Prod.snd).map List.length).sum := by
        rw [List.map_map]
        rfl
    _ = (((groupEntries keyinfo entries).map Prod.snd).flatten).length :=
        (List.length_flatten _).symm
    _ = entries.length := hperm.length_eq

/-- C2 (amended).  In the grouping primitive shared by the calculators, each
node's children partition that node's record set exactly: the child record
lists flatten to a permutation of the node's records (none dropped, none
counted twice), every record lands in the child bearing its own key, and
child keys are distinct.  The children's unrounded metric sums (hours, rounded
hours, billable/non-billable hours, billable amount, entry count) equal the
parent's unrounded totals.  The nodes of both the aggregation tree and the
profitability tree carry exactly the per-group metrics of this partition —
but those stored metrics are rounded to 2 decimals (and, for the
profitability tree, invoices are attached only to client-keyed groups), so
the stored child metrics need not sum to the parent's stored metrics. -/
theorem grouping_partition_exact (d : GroupBy) (ds : List GroupBy)
    (entries : List TimeEntryRec) (invoices : List InvoiceRec) (mode : ProfitMode)
    (rateMap : List (ℕ × ℚ)) (inb : Bool) :
    (((groupEntries (fun e => getGroupKey e d) entries).map Prod.snd).flatten).Perm entries ∧
    (∀ g ∈ groupEntries (fun e => getGroupKey e d) entries, ∀ x ∈ g.2,
      (getGroupKey x d).key = g.1.key) ∧
    ((groupEntries (fun e => getGroupKey e d) entries).map (fun g => g.1.key)).Nodup ∧
    ((groupEntries (fun e => getGroupKey e d) entries).map (fun g => rawHours g.2)).sum =
      rawHours entries ∧
    ((groupEntries (fun e => getGroupKey e d) entries).map (fun g => rawRoundedHours g.2)).sum =
      rawRoundedHours entries ∧
    ((groupEntries (fun e => getGroupKey e d) entries).map (fun g => rawBillableHours g.2)).sum =
      rawBillableHours entries ∧
    ((groupEntries (fun e => getGroupKey e d) entries).map
        (fun g => rawNonBillableHours g.2)).sum = rawNonBillableHours entries ∧
    ((groupEntries (fun e => getGroupKey e d) entries).map (fun g => rawBillableAmount g.2)).sum =
      rawBillableAmount entries ∧
    ((groupEntries (fun e => getGroupKey e d) entries).map (fun g => g.2.length)).sum =
      entries.length ∧
    ((groupResultsAgg (d :: ds) entries).map AggNode.metrics).Perm
      ((groupEntries (fun e => getGroupKey e d) entries).map
        (fun g => calculateMetricsAgg g.2)) ∧
    ((profitGroupResults mode rateMap inb (d :: ds) entries invoices).map
        ProfitNode.metrics).Perm
      ((groupEntries (fun e => getGroupKey e d) entries).map (fun g =>
        (calcByMode mode g.2 (invoicesForGroup d invoices g.1) rateMap inb []).1)) := by
  refine ⟨groupEntries_flatten_perm _ entries, groupEntries_keyed _ entries,
    groupEntries_keys_nodup _ entries,
    groupEntries_sum_eq _ entries (fun e => e.hours),
    groupEntries_sum_eq _ entries (fun e => e.rounded_hours),
    groupEntries_sum_eq _ entries (fun e => if e.billable then e.hours else 0),
    groupEntries_sum_eq _ entries (fun e => if e.billable then 0 else e.hours),
    groupEntries_sum_eq _ entries (fun e => if e.billable then e.hours * (e.billable_rate.getD 0) else 0),
    groupEntries_length_eq _ entries, ?_, ?_⟩
  · refine ((List.perm_insertionSort aggHoursDesc _).map AggNode.metrics).trans ?_
    rw [List.map_map]
    exact List.Perm.refl _
  · refine ((List.perm_insertionSort profitAmountDesc _).map ProfitNode.metrics).trans ?_
    rw [List.map_map]
    exact List.Perm.refl _

theorem insertionSort_singleton {A : Type} (r : A → A → Prop) [DecidableRel r] (a : A) :
    List.insertionSort r [a] = [a] := by
  simp [List.insertionSort, List.orderedInsert]

/-- Records for the C2 counterexamples: two 0.005-hour entries under one date
but different projects, and a billable 1-hour entry with a 500-unit open
invoice on its client. -/
def c2e1 : TimeEntryRec :=
  { id := 1, spent_date := "2024-01-01", hours := 0.005, rounded_hours := 0,
    billable := false, is_billed := false, billable_rate := none, cost_rate := none,
    user_id := 1, user_name := "U", client_id := 1, client_name := "C",
    project_id := 1, project_name := "P1", task_id := 1, task_name := "T" }

def c2e2 : TimeEntryRec :=
  { id := 2, spent_date := "2024-01-01", hours := 0.005, rounded_hours := 0,
    billable := false, is_billed := false, billable_rate := none, cost_rate := none,
    user_id := 1, user_name := "U", client_id := 1, client_name := "C",
    project_id := 2, project_name := "P2", task_id := 1, task_name := "T" }

def c2pe : TimeEntryRec :=
  { id := 3, spent_date := "2024-01-02", hours := 1, rounded_hours := 1,
    billable := true, is_billed := true, billable_rate := some 0, cost_rate := some 0,
    user_id := 1, user_name := "U", client_id := 7, client_name := "C7",
    project_id := 3, project_name := "P3", task_id := 4, task_name := "T4" }

def c2inv : InvoiceRec := { id := 1, client_id := 7, amount := 500, state := .opened }

/-- C2 counterexample.  As stated the claim is false on the stored metrics:
(a) grouping the two 0.005-hour records by `[date, project]` gives a date node
with stored hours 0.01 whose two project children each store 0.01 (rounded),
summing to 0.02; (b) in invoice-based mode, grouping by `[client, task]` gives
a client node with billable amount 500 whose task child stores 0, because
invoices are not assigned to non-client subgroups. -/
theorem grouping_metrics_sum_cx :
    ((groupResultsAgg [GroupBy.date, GroupBy.project] [c2e1, c2e2]).map
      (fun n => ((n.children.map (fun c => c.metrics.hours)).sum, n.metrics.hours))) =
      [(1/50, 1/100)] ∧
    ((1 : ℚ)/50 ≠ 1/100) ∧
    ((profitGroupResults ProfitMode.invoice_based [] false [GroupBy.client, GroupBy.task]
        [c2pe] [c2inv]).map
      (fun n => (n.metrics.billable_amount,
        (n.children.map (fun c => c.metrics.billable_amount)).sum))) = [(500, 0)] ∧
    ((500 : ℚ) ≠ 0) := by
  have hgd : groupEntries (fun e => getGroupKey e GroupBy.date) [c2e1, c2e2] =
      [(getGroupKey c2e1 GroupBy.date, [c2e1, c2e2])] := rfl
  have hgp : groupEntries (fun e => getGroupKey e GroupBy.project) [c2e1, c2e2] =
      [(getGroupKey c2e1 GroupBy.project, [c2e1]),
       (getGroupKey c2e2 GroupBy.project, [c2e2])] := rfl
  have hch : groupResultsAgg [GroupBy.project] [c2e1, c2e2] =
      List.insertionSort aggHoursDesc
        [AggNode.mk (getGroupKey c2e1 GroupBy.project) (calculateMetricsAgg [c2e1]) [],
         AggNode.mk (getGroupKey c2e2 GroupBy.project) (calculateMetricsAgg [c2e2]) []] := by
    have h0 : groupResultsAgg [GroupBy.project] [c2e1, c2e2] =
        List.insertionSort aggHoursDesc
          ((groupEntries (fun e => getGroupKey e GroupBy.project) [c2e1, c2e2]).map
            (fun g => AggNode.mk g.1 (calculateMetricsAgg g.2) (groupResultsAgg [] g.2))) := rfl
    rw [h0, hgp, List.map_cons, List.map_cons, List.map_nil]
    rfl
  have htop : groupResultsAgg [GroupBy.date, GroupBy.project] [c2e1, c2e2] =
      [AggNode.mk (getGroupKey c2e1 GroupBy.date) (calculateMetricsAgg [c2e1, c2e2])
        (groupResultsAgg [GroupBy.project] [c2e1, c2e2])] := by
    have h0 : groupResultsAgg [GroupBy.date, GroupBy.project] [c2e1, c2e2] =
        List.insertionSort aggHoursDesc
          ((groupEntries (fun e => getGroupKey e GroupBy.date) [c2e1, c2e2]).map
            (fun g => AggNode.mk g.1 (calculateMetricsAgg g.2)
              (groupResultsAgg [GroupBy.project] g.2))) := rfl
    rw [h0, hgd, List.map_cons, List.map_nil, insertionSort_singleton]
  have h1 : ((groupResultsAgg [GroupBy.project] [c2e1, c2e2]).map
      (fun c => c.metrics.hours)).sum = 1/50 := by
    rw [hch, ((List.perm_insertionSort aggHoursDesc _).map (fun c => c.metrics.hours)).sum_eq]
    simp only [List.map_cons, List.map_nil, calculateMetricsAgg]
    norm_num [rawHours, c2e1, c2e2, round2, round_eq]
  have h2 : (calculateMetricsAgg [c2e1, c2e2]).hours = 1/100 := by
    simp only [calculateMetricsAgg]
    norm_num [rawHours, c2e1, c2e2, round2, round_eq]
  have hgc : groupEntries (fun e => getGroupKey e GroupBy.client) [c2pe] =
      [(getGroupKey c2pe GroupBy.client, [c2pe])] := rfl
  have hgt : groupEntries (fun e => getGroupKey e GroupBy.task) [c2pe] =
      [(getGroupKey c2pe GroupBy.task, [c2pe])] := rfl
  have hic : invoicesForGroup GroupBy.client [c2inv] (getGroupKey c2pe GroupBy.client) =
      [c2inv] := rfl
  have hit : invoicesForGroup GroupBy.task [c2inv] (getGroupKey c2pe GroupBy.task) = [] := rfl
  have hch2 : profitGroupResults ProfitMode.invoice_based [] false [GroupBy.task]
      [c2pe] [c2inv] =
      [ProfitNode.mk (getGroupKey c2pe GroupBy.task)
        (calcByMode ProfitMode.invoice_based [c2pe] [] [] false []).1 []] := by
    have h0 : profitGroupResults ProfitMode.invoice_based [] false [GroupBy.task]
        [c2pe] [c2inv] =
        List.insertionSort profitAmountDesc
          ((groupEntries (fun e => getGroupKey e GroupBy.task) [c2pe]).map
            (fun g => ProfitNode.mk g.1
              (calcByMode ProfitMode.invoice_based g.2
                (invoicesForGroup GroupBy.task [c2inv] g.1) [] false []).1
              (profitGroupResults ProfitMode.invoice_based [] false [] g.2
                (invoicesForGroup GroupBy.task [c2inv] g.1)))) := rfl
    rw [h0, hgt, List.map_cons, List.map_nil, hit, insertionSort_singleton]
    rfl
  have htop2 : profitGroupResults ProfitMode.invoice_based [] false
      [GroupBy.client, GroupBy.task] [c2pe] [c2inv] =
      [ProfitNode.mk (getGroupKey c2pe GroupBy.client)
        (calcByMode ProfitMode.invoice_based [c2pe] [c2inv] [] false []).1
        (profitGroupResults ProfitMode.invoice_based [] false [GroupBy.task]
          [c2pe] [c2inv])] := by
    have h0 : profitGroupResults ProfitMode.invoice_based [] false
        [GroupBy.client, GroupBy.task] [c2pe] [c2inv] =
        List.insertionSort profitAmountDesc
          ((groupEntries (fun e => getGroupKey e GroupBy.client) [c2pe]).map
            (fun g => ProfitNode.mk g.1
              (calcByMode ProfitMode.invoice_based g.2
                (invoicesForGroup GroupBy.client [c2inv] g.1) [] false []).1
              (profitGroupResults ProfitMode.invoice_based [] false [GroupBy.task] g.2
                (invoicesForGroup GroupBy.client [c2inv] g.1)))) := rfl
    rw [h0, hgc, List.map_cons, List.map_nil, hic, insertionSort_singleton]
  have h3 : (calcByMode ProfitMode.invoice_based [c2pe] [c2inv] [] false []).1.billable_amount
      = 500 := by
    simp only [calcByMode, calculateInvoiceBased, buildMetrics, invoiceRevenue,
      List.map_cons, List.map_nil, c2inv]
    rw [if_neg (by decide : ¬ (InvoiceState.opened = InvoiceState.draft))]
    norm_num [round2, round_eq]
  have h4 : (calcByMode ProfitMode.invoice_based [c2pe] [] [] false []).1.billable_amount
      = 0 := by
    simp only [calcByMode, calculateInvoiceBased, buildMetrics, invoiceRevenue,
      List.map_nil]
    norm_num [round2, round_eq]
  refine ⟨?_, by norm_num, ?_, by norm_num⟩
  · rw [htop]
    simp only [List.map_cons, List.map_nil]
    rw [h1, h2]
  · rw [htop2, hch2]
    simp only [List.map_cons, List.map_nil]
    rw [h3, h4]
    norm_num

/-- The single record of the spec's time-based profitability test. -/
def c7entry : TimeEntryRec :=
  { id := 10, spent_date := "2024-03-05", hours := 10, rounded_hours := 10,
    billable := true, is_billed := false, billable_rate := some 100, cost_rate := some 50,
    user_id := 5, user_name := "W", client_id := 1, client_name := "C",
    project_id := 1, project_name := "P", task_id := 1, task_name := "T" }

/-- C7.  Derived profitability metrics: margin% is profit/revenue×100 (0 when
revenue is 0 — division by zero never occurs), effective rate is
revenue/billable-hours (0 when there are no billable hours), cost-rate average
is cost/hours, each rounded to 2 decimals; and the single record
{hours 10, billable, rate 100, cost rate 50} yields revenue 1000, cost 500,
profit 500, margin 50.0. -/
theorem profitability_margin_formulas (h bh nbh amt cost : ℚ)
    (hh : 0 ≤ h) (hbh : 0 ≤ bh) (hamt : 0 ≤ amt) :
    ((buildMetrics h bh nbh amt cost).margin_percent = round2 ((amt - cost) / amt * 100)) ∧
    (amt = 0 → (buildMetrics h bh nbh amt cost).margin_percent = 0) ∧
    ((buildMetrics h bh nbh amt cost).effective_rate = round2 (amt / bh)) ∧
    (bh = 0 → (buildMetrics h bh nbh amt cost).effective_rate = 0) ∧
    ((buildMetrics h bh nbh amt cost).cost_rate_avg = round2 (cost / h)) ∧
    (calculateTimeBased [c7entry] [] false []).1 =
      { hours := 10, billable_hours := 10, non_billable_hours := 0, billable_amount := 1000,
        cost := 500, profit := 500, margin_percent := 50, effective_rate := 100,
        cost_rate_avg := 50 } := by
  have hr0 : round2 0 = 0 := by norm_num [round2, round_eq]
  refine ⟨?_, ?_, ?_, ?_, ?_, ?_⟩
  · show round2 (if 0 < amt then (amt - cost) / amt * 100 else 0) = _
    rcases eq_or_lt_of_le hamt with he | hl
    · subst he
      rw [if_neg (lt_irrefl 0), div_zero, zero_mul]
    · rw [if_pos hl]
  · intro h0
    show round2 (if 0 < amt then (amt - cost) / amt * 100 else 0) = 0
    rw [h0, if_neg (lt_irrefl 0)]
    exact hr0
  · show round2 (if 0 < bh then amt / bh else 0) = _
    rcases eq_or_lt_of_le hbh with he | hl
    · subst he
      rw [if_neg (lt_irrefl 0), div_zero]
    · rw [if_pos hl]
  · intro h0
    show round2 (if 0 < bh then amt / bh else 0) = 0
    rw [h0, if_neg (lt_irrefl 0)]
    exact hr0
  · show round2 (if 0 < h then cost / h else 0) = _
    rcases eq_or_lt_of_le hh with he | hl
    · subst he
      rw [if_neg (lt_irrefl 0), div_zero]
    · rw [if_pos hl]
  · simp only [calculateTimeBased, List.foldl_cons, List.foldl_nil, tbStep, c7entry,
      resolveCostRate, rateLookup]
    norm_num [buildMetrics, round2, round_eq, ProfitabilityMetrics.mk.injEq]

/-- Witness for C7 at hours 10, billable hours 10, revenue 1000, cost 500. -/
theorem profitability_margin_formulas_witness :
    ((buildMetrics 10 10 0 1000 500).margin_percent = round2 ((1000 - 500) / 1000 * 100)) ∧
    ((1000 : ℚ) = 0 → (buildMetrics 10 10 0 1000 500).margin_percent = 0) ∧
    ((buildMetrics 10 10 0 1000 500).effective_rate = round2 (1000 / 10)) ∧
    ((10 : ℚ) = 0 → (buildMetrics 10 10 0 1000 500).effective_rate = 0) ∧
    ((buildMetrics 10 10 0 1000 500).cost_rate_avg = round2 (500 / 10)) ∧
    (calculateTimeBased [c7entry] [] false []).1 =
      { hours := 10, billable_hours := 10, non_billable_hours := 0, billable_amount := 1000,
        cost := 500, profit := 500, margin_percent := 50, effective_rate := 100,
        cost_rate_avg := 50 } :=
  profitability_margin_formulas 10 10 0 1000 500 (by norm_num) (by norm_num) (by norm_num)

/-- C8.  Capacity is working days × capacity hours per day × active user
count, with working days counted inclusively (excluding weekends when
configured); utilization% is total hours over capacity × 100, and billable
utilization% likewise, rounded to 2 decimals. -/
theorem utilization_capacity_formula (entries : List TimeEntryRec) (uid : Option ℕ)
    (fromD toD : ℤ) (perDay : ℚ) (exclW : Bool)
    (hcap : 0 < totalCapacity entries uid fromD toD perDay exclW) :
    (utilizationCalculate entries uid fromD toD perDay exclW).capacity_hours =
      ((utilizationCalculate entries uid fromD toD perDay exclW).working_days : ℚ) * perDay *
        ((utilizationCalculate entries uid fromD toD perDay exclW).users_included : ℚ) ∧
    (utilizationCalculate entries uid fromD toD perDay exclW).working_days =
      calculateWorkingDays fromD toD exclW ∧
    (utilizationCalculate entries uid fromD toD perDay exclW).totals.utilization_percent =
      round2 (rawHours entries / totalCapacity entries uid fromD toD perDay exclW * 100) ∧
    (utilizationCalculate entries uid fromD toD perDay exclW).totals.billable_utilization_percent
      = round2 (rawBillableHours entries /
          totalCapacity entries uid fromD toD perDay exclW * 100) := by
  refine ⟨rfl, rfl, ?_, ?_⟩
  · show round2 (if 0 < totalCapacity entries uid fromD toD perDay exclW then
      rawHours entries / totalCapacity entries uid fromD toD perDay exclW * 100 else 0) = _
    rw [if_pos hcap]
  · show round2 (if 0 < totalCapacity entries uid fromD toD perDay exclW then
      rawBillableHours entries / totalCapacity entries uid fromD toD perDay exclW * 100
      else 0) = _
    rw [if_pos hcap]

/-- The 30-hour entry of the spec's utilization test. -/
def c8entry : TimeEntryRec :=
  { id := 20, spent_date := "2024-01-01", hours := 30, rounded_hours := 30,
    billable := true, is_billed := false, billable_rate := none, cost_rate := none,
    user_id := 1, user_name := "V", client_id := 1, client_name := "C",
    project_id := 1, project_name := "P", task_id := 1, task_name := "T" }

/-- Witness for C8: days 4..8 (1970-01-05 Monday through Friday), 8 hours per
day, one user: capacity 40; 30 logged hours give utilization 75.0. -/
theorem utilization_capacity_formula_witness :
    ((utilizationCalculate [c8entry] (some 1) 4 8 8 true).capacity_hours =
      ((utilizationCalculate [c8entry] (some 1) 4 8 8 true).working_days : ℚ) * 8 *
        ((utilizationCalculate [c8entry] (some 1) 4 8 8 true).users_included : ℚ) ∧
    (utilizationCalculate [c8entry] (some 1) 4 8 8 true).working_days =
      calculateWorkingDays 4 8 true ∧
    (utilizationCalculate [c8entry] (some 1) 4 8 8 true).totals.utilization_percent =
      round2 (rawHours [c8entry] / totalCapacity [c8entry] (some 1) 4 8 8 true * 100) ∧
    (utilizationCalculate [c8entry] (some 1) 4 8 8 true).totals.billable_utilization_percent
      = round2 (rawBillableHours [c8entry] / totalCapacity [c8entry] (some 1) 4 8 8 true
          * 100)) ∧
    (utilizationCalculate [c8entry] (some 1) 4 8 8 true).working_days = 5 ∧
    (utilizationCalculate [c8entry] (some 1) 4 8 8 true).capacity_hours = 40 ∧
    (utilizationCalculate [c8entry] (some 1) 4 8 8 true).totals.utilization_percent = 75 := by
  have hwd : calculateWorkingDays 4 8 true = 5 := by decide
  have hau : activeUsers [c8entry] (some 1) = 1 := rfl
  have hcap : totalCapacity [c8entry] (some 1) 4 8 8 true = 40 := by
    rw [totalCapacity, hwd, hau]
    norm_num
  have h := utilization_capacity_formula [c8entry] (some 1) 4 8 8 true
    (by rw [hcap]; norm_num)
  refine ⟨h, hwd, hcap, ?_⟩
  rw [h.2.2.1, hcap]
  rw [show rawHours [c8entry] = 30 from by norm_num [rawHours, c8entry]]
  norm_num [round2, round_eq]
